import Mathlib

/-!
A verification development for the catalog persistence layer of the
`ol_ocr` repository (`src/ol_ocr/library.py`, `src/ol_ocr/database.py`).

The embedding is a shallow one:

* The SQLite store is a `DB` value: one Lean list per table, in rowid
  (insertion) order, together with the next rowid of every table.
  `schema.sql` is not part of the sources; the schema (UNIQUE columns,
  the pair-uniqueness of the link tables, foreign keys) is modelled from
  the spec, §6.
* Every SQL statement executed by `Book.save` / `Book.from_db` becomes a
  Lean function on `DB`.  A connection (`Conn`) additionally carries
  `lastRowId` — SQLite's per-connection "last insert rowid", which is `0`
  on a fresh connection, is updated by every INSERT that actually inserts
  a row, and is left unchanged by an `ON CONFLICT DO NOTHING` no-op —
  because `Book.save` reads `cur.lastrowid` to resolve row identities.
* `save` opens a fresh connection per call (`with db_conn(DB_FILE)`), so
  `lastRowId` starts at `0` on every call.
* Storage-engine failures are modelled by an optional fault schedule:
  `saveF failAt` makes the `failAt`-th SELECT/INSERT statement of the
  call raise a `StoreError.injected` instead of executing.  `save` is the
  fault-free run.  Genuine constraint failures (UNIQUE outside the
  conflict clause, foreign keys, which `db_conn` switches on) are
  modelled unconditionally.
* In the source, only the book INSERT sits inside `transaction(conn)`;
  the author/subject loops run on auto-commit statements.  The rollback
  of that scope is inlined as a snapshot restore around the one statement
  it protects.  The generic `transaction` context manager of
  `database.py` is modelled separately (`transaction`) with a statement trace,
  to settle the claim about its BEGIN/COMMIT/ROLLBACK behavior.
* Python iterates `self.subjects` (a `set`) in an unspecified order; the
  embedding fixes one order by modelling the subject collection as a
  duplicate-free list.
-/

/-- `Author` dataclass of `library.py`. -/
structure Author where
  url : String
  name : String
deriving DecidableEq, Repr

/-- `Book` dataclass of `library.py`.  `subjects : set[str]` is modelled as a
list (Python iterates the set in some order; a valid one has no duplicates). -/
structure Book where
  url : String
  isbn : String
  title : String
  subtitle : Option String
  authors : List Author
  subjects : List String
  cover_url : Option String
deriving DecidableEq, Repr

/-- A row of the `book` table (spec §6). -/
structure BookRow where
  id : Nat
  url : String
  isbn : String
  title : String
  subtitle : Option String
  cover_url : Option String
deriving DecidableEq, Repr

/-- A row of the `author` table (spec §6). -/
structure AuthorRow where
  id : Nat
  url : String
  name : String
deriving DecidableEq, Repr

/-- A row of the `subject` table (spec §6). -/
structure SubjectRow where
  id : Nat
  sub_name : String
deriving DecidableEq, Repr

/-- The store: the five tables of the schema, each in rowid order, plus the
next rowid of each table (rows are never deleted, so "max rowid + 1" is a
counter).  Link rows are `(b_id, entity_id)` pairs; their surrogate rowids
are invisible except through `lastRowId`, so only their counters are kept. -/
structure DB where
  book : List BookRow
  author : List AuthorRow
  subject : List SubjectRow
  book_author : List (Nat × Nat)
  book_subject : List (Nat × Nat)
  nextBookId : Nat
  nextAuthorId : Nat
  nextSubjectId : Nat
  nextBookAuthorRowid : Nat
  nextBookSubjectRowid : Nat
deriving DecidableEq, Repr

/-- The freshly-created (empty) store. -/
def DB.empty : DB := ⟨[], [], [], [], [], 1, 1, 1, 1, 1⟩

/-- Storage-engine failures (`sqlite3` exceptions in the source):
an injected engine fault (I/O, lock contention, ...), a UNIQUE-constraint
violation not absorbed by the statement's conflict clause, and a
foreign-key violation (`pragma foreign_keys = on` is set by `db_conn`). -/
inductive StoreError where
  | injected : StoreError
  | uniqueViolation : StoreError
  | fkViolation : StoreError
deriving DecidableEq, Repr

/-- `SELECT id FROM book WHERE isbn = ?` (first row in rowid order). -/
def selectBookIdByIsbn (db : DB) (isbn : String) : Option Nat :=
  (db.book.find? (fun r => r.isbn == isbn)).map (fun r => r.id)

/-- `SELECT id FROM author WHERE url = ?`. -/
def selectAuthorIdByUrl (db : DB) (url : String) : Option Nat :=
  (db.author.find? (fun r => r.url == url)).map (fun r => r.id)

/-- `SELECT id FROM subject WHERE sub_name = ?`. -/
def selectSubjectIdByName (db : DB) (name : String) : Option Nat :=
  (db.subject.find? (fun r => r.sub_name == name)).map (fun r => r.id)

/-- `INSERT INTO book (url, isbn, title, subtitle, cover_url) VALUES (…)
ON CONFLICT (url) DO NOTHING`.  A conflict on `url` is absorbed (no-op);
a conflict on the UNIQUE `isbn` column is not covered by the clause and
raises.  Returns the new rowid when a row was actually inserted. -/
def insertBookOnConflictUrl (db : DB) (b : Book) :
    Except StoreError (Option Nat × DB) :=
  if db.book.any (fun r => r.url == b.url) then .ok (none, db)
  else if db.book.any (fun r => r.isbn == b.isbn) then .error .uniqueViolation
  else .ok (some db.nextBookId,
    { db with
        book := db.book ++ [⟨db.nextBookId, b.url, b.isbn, b.title, b.subtitle, b.cover_url⟩],
        nextBookId := db.nextBookId + 1 })

/-- `INSERT INTO author (url, name) VALUES (…) ON CONFLICT (url) DO NOTHING`.
`name` carries no constraint, so no failure beyond an injected fault. -/
def insertAuthorOnConflictUrl (db : DB) (a : Author) : Option Nat × DB :=
  if db.author.any (fun r => r.url == a.url) then (none, db)
  else (some db.nextAuthorId,
    { db with
        author := db.author ++ [⟨db.nextAuthorId, a.url, a.name⟩],
        nextAuthorId := db.nextAuthorId + 1 })

/-- `INSERT INTO subject (sub_name) VALUES (?) ON CONFLICT (sub_name) DO NOTHING`. -/
def insertSubjectOnConflict (db : DB) (s : String) : Option Nat × DB :=
  if db.subject.any (fun r => r.sub_name == s) then (none, db)
  else (some db.nextSubjectId,
    { db with
        subject := db.subject ++ [⟨db.nextSubjectId, s⟩],
        nextSubjectId := db.nextSubjectId + 1 })

/-- `INSERT INTO book_author (b_id, a_id) VALUES (?,?) ON CONFLICT DO NOTHING`.
A duplicate pair is absorbed; otherwise the row is inserted after the
foreign-key checks on both sides (a conflict no-op performs no insert,
hence no foreign-key check). -/
def insertBookAuthorOnConflict (db : DB) (bId aId : Nat) :
    Except StoreError (Option Nat × DB) :=
  if db.book_author.any (fun p => p == (bId, aId)) then .ok (none, db)
  else if db.book.any (fun r => r.id == bId) && db.author.any (fun r => r.id == aId) then
    .ok (some db.nextBookAuthorRowid,
      { db with
          book_author := db.book_author ++ [(bId, aId)],
          nextBookAuthorRowid := db.nextBookAuthorRowid + 1 })
  else .error .fkViolation

/-- `INSERT INTO book_subject (b_id, s_id) VALUES (?,?) ON CONFLICT DO NOTHING`. -/
def insertBookSubjectOnConflict (db : DB) (bId sId : Nat) :
    Except StoreError (Option Nat × DB) :=
  if db.book_subject.any (fun p => p == (bId, sId)) then .ok (none, db)
  else if db.book.any (fun r => r.id == bId) && db.subject.any (fun r => r.id == sId) then
    .ok (some db.nextBookSubjectRowid,
      { db with
          book_subject := db.book_subject ++ [(bId, sId)],
          nextBookSubjectRowid := db.nextBookSubjectRowid + 1 })
  else .error .fkViolation

/-- An open connection during one `save` call: the store, SQLite's
per-connection last-insert rowid (`0` on a fresh connection), and the index
of the next SELECT/INSERT statement (for the fault schedule). -/
structure Conn where
  db : DB
  lastRowId : Nat
  stmtIdx : Nat
deriving DecidableEq, Repr

/-- Whether the fault schedule makes the statement about to run raise. -/
def stmtFails (f : Option Nat) (c : Conn) : Bool := f == some c.stmtIdx

/-- Advance past one executed (or faulted) statement. -/
def Conn.bump (c : Conn) : Conn := { c with stmtIdx := c.stmtIdx + 1 }

/-- The `book_author` link insert of the author loop (auto-commit). -/
def linkBookAuthor (f : Option Nat) (bId aId : Nat) (c : Conn) :
    Except StoreError Unit × Conn :=
  if stmtFails f c then (.error .injected, c.bump)
  else
    let c := c.bump
    match insertBookAuthorOnConflict c.db bId aId with
    | .error e => (.error e, c)
    | .ok (rid, db) => (.ok (), { c with db := db, lastRowId := rid.getD c.lastRowId })

/-- One iteration of `save`'s author loop: `SELECT id FROM author WHERE url`,
on a miss the conflict-ignoring INSERT with `a_id := cur.lastrowid`, on a hit
`a_id := result[0]`; then the link insert. -/
def saveAuthor (f : Option Nat) (bId : Nat) (a : Author) (c : Conn) :
    Except StoreError Unit × Conn :=
  if stmtFails f c then (.error .injected, c.bump)
  else
    let c := c.bump
    match selectAuthorIdByUrl c.db a.url with
    | some aId => linkBookAuthor f bId aId c
    | none =>
      if stmtFails f c then (.error .injected, c.bump)
      else
        let c := c.bump
        let r := insertAuthorOnConflictUrl c.db a
        let c := { c with db := r.2, lastRowId := r.1.getD c.lastRowId }
        linkBookAuthor f bId c.lastRowId c

/-- `for author in self.authors: …` — the whole author loop. -/
def saveAuthors (f : Option Nat) (bId : Nat) :
    List Author → Conn → Except StoreError Unit × Conn
  | [], c => (.ok (), c)
  | a :: as, c =>
    match saveAuthor f bId a c with
    | (.ok (), c2) => saveAuthors f bId as c2
    | (.error e, c2) => (.error e, c2)

/-- The `book_subject` link insert of the subject loop (auto-commit). -/
def linkBookSubject (f : Option Nat) (bId sId : Nat) (c : Conn) :
    Except StoreError Unit × Conn :=
  if stmtFails f c then (.error .injected, c.bump)
  else
    let c := c.bump
    match insertBookSubjectOnConflict c.db bId sId with
    | .error e => (.error e, c)
    | .ok (rid, db) => (.ok (), { c with db := db, lastRowId := rid.getD c.lastRowId })

/-- One iteration of `save`'s subject loop. -/
def saveSubject (f : Option Nat) (bId : Nat) (s : String) (c : Conn) :
    Except StoreError Unit × Conn :=
  if stmtFails f c then (.error .injected, c.bump)
  else
    let c := c.bump
    match selectSubjectIdByName c.db s with
    | some sId => linkBookSubject f bId sId c
    | none =>
      if stmtFails f c then (.error .injected, c.bump)
      else
        let c := c.bump
        let r := insertSubjectOnConflict c.db s
        let c := { c with db := r.2, lastRowId := r.1.getD c.lastRowId }
        linkBookSubject f bId c.lastRowId c

/-- `for subject in self.subjects: …` — the whole subject loop. -/
def saveSubjects (f : Option Nat) (bId : Nat) :
    List String → Conn → Except StoreError Unit × Conn
  | [], c => (.ok (), c)
  | s :: ss, c =>
    match saveSubject f bId s c with
    | (.ok (), c2) => saveSubjects f bId ss c2
    | (.error e, c2) => (.error e, c2)

/-- The author loop, the subject loop and the final `conn.commit()` (a no-op:
the connection runs in auto-commit mode and no transaction is open here). -/
def savePhase2 (f : Option Nat) (self : Book) (bId : Nat) (c : Conn) :
    Except StoreError Unit × DB :=
  match saveAuthors f bId self.authors c with
  | (.error e, c2) => (.error e, c2.db)
  | (.ok (), c2) =>
    match saveSubjects f bId self.subjects c2 with
    | (.error e, c3) => (.error e, c3.db)
    | (.ok (), c3) => (.ok (), c3.db)

/-- `Book.save` of `library.py`, instrumented with a fault schedule `f`
(the `f`-th SELECT/INSERT raises `StoreError.injected` instead of running).
A fresh connection (`lastRowId = 0`) is opened per call.  The book INSERT —
and only it — runs inside `transaction(conn)`: on failure the scope rolls
back to its snapshot and re-raises; everything else is auto-commit.  On the
isbn miss, `b_id := cur.lastrowid`, which a conflict no-op leaves at the
connection's previous value. -/
def saveF (f : Option Nat) (self : Book) (db : DB) : Except StoreError Unit × DB :=
  let c : Conn := ⟨db, 0, 0⟩
  if stmtFails f c then (.error .injected, db)
  else
    let c := c.bump
    match selectBookIdByIsbn c.db self.isbn with
    | some bId => savePhase2 f self bId c
    | none =>
      let snapshot := c.db
      if stmtFails f c then (.error .injected, snapshot)
      else
        let c := c.bump
        match insertBookOnConflictUrl c.db self with
        | .error e => (.error e, snapshot)
        | .ok (rid, db2) =>
          let c := { c with db := db2, lastRowId := rid.getD c.lastRowId }
          savePhase2 f self c.lastRowId c

/-- `Book.save` of `library.py`: the fault-free run. -/
def Book.save (self : Book) (db : DB) : Except StoreError Unit × DB :=
  saveF none self db

/-- `BookNotInDatabaseError` of `library.py`. -/
inductive LoadError where
  | bookNotInDatabase : String → LoadError
deriving DecidableEq, Repr

/-- `Book.from_db` of `library.py`.  Three SELECTs; the author join is read
in link-table (rowid) order, the subject join likewise; no ORDER BY appears
in the source, so this fixes one of the orders the engine may produce.  The
store component of the result witnesses that the operation writes nothing. -/
def Book.from_db (db : DB) (isbn : String) : Except LoadError Book × DB :=
  match db.book.find? (fun r => r.isbn == isbn) with
  | none => (.error (.bookNotInDatabase isbn), db)
  | some r =>
    let authors := (db.book_author.filter (fun p => p.1 == r.id)).filterMap
      (fun p => (db.author.find? (fun a => a.id == p.2)).map
        (fun a => Author.mk a.url a.name))
    let subjects := (db.book_subject.filter (fun p => p.1 == r.id)).filterMap
      (fun p => (db.subject.find? (fun s => s.id == p.2)).map
        (fun s => s.sub_name))
    (.ok ⟨r.url, r.isbn, r.title, r.subtitle, authors, subjects, r.cover_url⟩, db)

/-! ## The `transaction` context manager of `database.py`

Modelled generically over a store type and a body, with a trace of the
transaction-control statements it issues.  `conn.rollback()` restores the
store to its state at the matching `BEGIN`. -/

/-- A transaction-control statement issued on the connection. -/
inductive TxStmt where
  | begin : TxStmt
  | commit : TxStmt
  | rollback : TxStmt
deriving DecidableEq, Repr

/-- A connection as seen by `transaction`: a store of some type `σ` plus the
trace of transaction-control statements issued so far. -/
structure TxConn (σ : Type) where
  db : σ
  log : List TxStmt
deriving DecidableEq, Repr

/-- Issue one transaction-control statement (appended to the trace). -/
def txExec {σ : Type} (c : TxConn σ) (s : TxStmt) : TxConn σ :=
  { c with log := c.log ++ [s] }

/-- `transaction` of `database.py`: issues `BEGIN`, runs the body; on normal
completion issues `COMMIT`; on a failure escaping the body, `conn.rollback()`
(restoring the store to its state at `BEGIN`) and a bare `raise` re-raising
the original failure. -/
def transaction {σ ε α : Type} (body : TxConn σ → Except ε α × TxConn σ)
    (c : TxConn σ) : Except ε α × TxConn σ :=
  let c0 := txExec c .begin
  match body c0 with
  | (.ok a, c1) => (.ok a, txExec c1 .commit)
  | (.error e, c1) => (.error e, { txExec c1 .rollback with db := c.db })

/-! ## `fetch_openlibrary_book` of `library.py`

The HTTP layer (`httpx`) is abstracted as a function from the request URL to
either a failure or a response; the response carries a status code, headers,
and the outcome of `resp.json()` — an association of bib keys to records
(the record itself abstracted as an opaque payload string, which no claim
inspects).  The `print` calls of the handler become a log of entries.

The source's `except` block reads the local variable `resp`
(`print(resp.status_code)`); when `httpx.get(url)` itself raised, `resp` was
never bound, so that line raises an unbound-local error which replaces the
original exception.  The model returns `.unboundLocalError` with only the
key and URL logged in that case. -/

/-- The exceptions that can cross `fetch_openlibrary_book`. -/
inductive PyErr where
  | networkError : PyErr
  | jsonDecodeError : PyErr
  | keyError : PyErr
  | unboundLocalError : PyErr
deriving DecidableEq, Repr

/-- An `httpx` response: status code, headers, and the result of `.json()`. -/
structure HttpResp where
  status_code : Nat
  headers : List (String × String)
  jsonData : Except PyErr (List (String × String))
deriving Repr

/-- One `print(...)` of the handler. -/
inductive LogEntry where
  | key : String → LogEntry
  | url : String → LogEntry
  | status : Nat → LogEntry
  | respHeaders : List (String × String) → LogEntry
deriving DecidableEq, Repr

/-- `fetch_openlibrary_book` of `library.py`, over an abstract HTTP getter. -/
def fetch_openlibrary_book (net : String → Except PyErr HttpResp)
    (isbnCanonical : String) : Except PyErr String × List LogEntry :=
  let key := "ISBN:" ++ isbnCanonical
  let url := "https://openlibrary.org/api/books?bibkeys=" ++ key ++ "&format=json&jscmd=data"
  match net url with
  | .error _ => (.error .unboundLocalError, [.key key, .url url])
  | .ok resp =>
    match resp.jsonData with
    | .error e =>
      (.error e, [.key key, .url url, .status resp.status_code, .respHeaders resp.headers])
    | .ok data =>
      match (data.find? (fun p => p.1 == key)).map (fun p => p.2) with
      | none =>
        (.error .keyError, [.key key, .url url, .status resp.status_code, .respHeaders resp.headers])
      | some book => (.ok book, [])

/-! ## `find_isbn` of `library.py`

`find_isbn` delegates to the third-party `isbnlib` package, which is not
part of the sources; its two operations are modelled from the spec, §4.1. -/

/-- Modelled from the spec: a character that can belong to an
identifier-shaped substring — "digit/hyphen runs". -/
def isIsbnChar (c : Char) : Bool := c.isDigit || c == '-'

/-- Maximal runs of identifier characters in the text, left to right
(`acc` is the current run, reversed). -/
def isbnRuns : List Char → List Char → List String
  | [], acc => if acc.isEmpty then [] else [String.mk acc.reverse]
  | ch :: cs, acc =>
    if isIsbnChar ch then isbnRuns cs (ch :: acc)
    else if acc.isEmpty then isbnRuns cs []
    else String.mk acc.reverse :: isbnRuns cs []

/-- The canonical, hyphen-free form: the digits of the candidate. -/
def canonicalIsbn (s : String) : String :=
  String.mk (s.data.filter (fun c => c.isDigit))

/-- Modelled from the spec: the lexical shape — a digit/hyphen run whose
digit count is one of the expected lengths (10 or 13). -/
def isbnShapeOk (s : String) : Bool :=
  (s.data.filter (fun c => c.isDigit)).length == 10 ||
    (s.data.filter (fun c => c.isDigit)).length == 13

/-- Modelled from the spec: `isbnlib.get_isbnlike` — the identifier-shaped
substrings of the text, in order of occurrence. -/
def get_isbnlike (text : String) : List String :=
  (isbnRuns text.data []).filter isbnShapeOk

/-- Numeric value of a digit character. -/
def digitVal (c : Char) : Nat := c.toNat - 48

/-- The ISBN-10 checksum rule: weights 10..1, sum divisible by 11. -/
def isbn10ChecksumOk (ds : List Char) : Bool :=
  ((ds.zipWith (fun c w => digitVal c * w) [10, 9, 8, 7, 6, 5, 4, 3, 2, 1]).foldl
      (fun x y => x + y) 0) % 11 == 0

/-- The ISBN-13 checksum rule: weights alternating 1 and 3, sum divisible
by 10. -/
def isbn13ChecksumOk (ds : List Char) : Bool :=
  ((ds.zipWith (fun c w => digitVal c * w) [1, 3, 1, 3, 1, 3, 1, 3, 1, 3, 1, 3, 1]).foldl
      (fun x y => x + y) 0) % 10 == 0

/-- Modelled from the spec: the identifier's checksum rule, by length. -/
def isbnChecksumOk (s : String) : Bool :=
  let ds := s.data.filter (fun c => c.isDigit)
  if ds.length == 10 then isbn10ChecksumOk ds
  else if ds.length == 13 then isbn13ChecksumOk ds
  else false

/-- Modelled from the spec: the `isbnlib.Isbn` constructor — checksum
validation, raising `NotValidISBNError` on failure, and exposing the
canonical hyphen-free form on success. -/
def IsbnNew (s : String) : Except Unit String :=
  if isbnChecksumOk s then .ok (canonicalIsbn s) else .error ()

/-- `find_isbn` of `library.py`: `Isbn(get_isbnlike(text)[0])`, with
`IndexError` (empty match list) and `NotValidISBNError` both mapped to
`None`. -/
def find_isbn (text : String) : Option String :=
  match get_isbnlike text with
  | [] => none
  | m :: _ =>
    match IsbnNew m with
    | .ok canonical => some canonical
    | .error () => none

/-! ## Generic list helpers -/

/-- A search that already succeeds on the prefix is unchanged by appending. -/
theorem find?_append_of_some {α : Type} {p : α → Bool} {l1 l2 : List α} {x : α}
    (h : l1.find? p = some x) : (l1 ++ l2).find? p = some x := by
  simp [List.find?_append, h]

/-- A search that fails on the prefix continues into the appended part. -/
theorem find?_append_of_none {α : Type} {p : α → Bool} {l1 l2 : List α}
    (h : l1.find? p = none) : (l1 ++ l2).find? p = l2.find? p := by
  simp [List.find?_append, h]

/-- `any` is false when `find?` fails. -/
theorem any_eq_false_of_find?_none {α : Type} {p : α → Bool} {l : List α}
    (h : l.find? p = none) : l.any p = false := by
  rw [List.find?_eq_none] at h
  simp only [List.any_eq_false]
  exact h

/-- In a list whose key column is pairwise distinct, searching for a member's
key finds exactly that member. -/
theorem find?_of_pairwise_key {α : Type} (key : α → Nat) {l : List α}
    (hpw : l.Pairwise (fun x y => key x ≠ key y)) {r : α} (hr : r ∈ l) :
    l.find? (fun x => key x == key r) = some r := by
  induction l with
  | nil => cases hr
  | cons h t ih =>
    rcases List.mem_cons.mp hr with rfl | hrt
    · simp
    · have hne : key h ≠ key r := (List.pairwise_cons.mp hpw).1 r hrt
      rw [List.find?_cons_of_neg _ (by simpa using hne)]
      exact ih (List.pairwise_cons.mp hpw).2 hrt

/-! ## Shared example data -/

/-- A book with one author and one subject. -/
def exB1 : Book := ⟨"u1", "i1", "T1", none, [⟨"a1", "A"⟩], ["S1"], none⟩

/-- A book whose `url` collides with `exB1`'s but whose `isbn` differs,
carrying one author of its own. -/
def exB2 : Book := ⟨"u1", "i2", "T2", none, [⟨"a2", "B"⟩], [], none⟩

/-- The store after saving `exB1` into the empty store. -/
def exDb1 : DB := (exB1.save DB.empty).2

/-! ## C1 — atomicity of `save` on failure -/

/-- C1 (counterexample): a storage-statement failure during `save` can leave
the store different from its pre-call state.  Saving `exB2` (whose `url`
collides with the already-saved `exB1` while its `isbn` differs) raises a
foreign-key violation at the author link insert — `b_id` is the stale
last-insert rowid `0` — yet `exB2`'s author row, inserted by an auto-commit
statement outside the transactional scope, remains visible afterwards. -/
theorem claim_C1_counterexample :
    (exB2.save exDb1).1 = Except.error StoreError.fkViolation ∧
      (exB2.save exDb1).2 ≠ exDb1 ∧
      (exB2.save exDb1).2.author.length = 2 ∧ exDb1.author.length = 1 := by
  refine ⟨rfl, by decide, by decide, by decide⟩

/-- C1 (amended): the transactional scope of `save` covers only the initial
isbn lookup's branch with the book INSERT; a failure raised at the isbn
SELECT (statement 0) or at the book INSERT inside the scope (statement 1,
rolled back before the error surfaces) propagates and leaves the store in
its pre-call state.  (Failures raised later, in the auto-commit
author/subject phase, can leave partial state — see the counterexample.) -/
theorem claim_C1_amended (db : DB) (b : Book)
    (h : selectBookIdByIsbn db b.isbn = none) :
    saveF (some 0) b db = (Except.error StoreError.injected, db) ∧
      saveF (some 1) b db = (Except.error StoreError.injected, db) := by
  constructor
  · rfl
  · unfold saveF
    simp only [stmtFails, Conn.bump]
    norm_num
    rw [h]

/-- C1 (witness): the amended theorem at a concrete input. -/
theorem claim_C1_witness :
    saveF (some 0) exB1 DB.empty = (Except.error StoreError.injected, DB.empty) ∧
      saveF (some 1) exB1 DB.empty = (Except.error StoreError.injected, DB.empty) :=
  claim_C1_amended DB.empty exB1 (by decide)

/-! ## C6 — load on a missing key, and read-only-ness of load -/

/-- C6: `Book.from_db` never modifies the store on any code path, and on an
isbn absent from the store it fails with `BookNotInDatabaseError` carrying
that isbn. -/
theorem claim_C6_load (db : DB) (isbn : String) :
    (Book.from_db db isbn).2 = db ∧
      ((∀ r ∈ db.book, r.isbn ≠ isbn) →
        Book.from_db db isbn =
          (Except.error (LoadError.bookNotInDatabase isbn), db)) := by
  constructor
  · unfold Book.from_db
    cases db.book.find? (fun r => r.isbn == isbn) <;> rfl
  · intro h
    have hn : db.book.find? (fun r => r.isbn == isbn) = none := by
      rw [List.find?_eq_none]
      intro r hr
      simpa using h r hr
    unfold Book.from_db
    rw [hn]

/-- C6 (witness): loading a missing isbn from the empty store. -/
theorem claim_C6_witness :
    (Book.from_db DB.empty "9999999999999").2 = DB.empty ∧
      Book.from_db DB.empty "9999999999999" =
        (Except.error (LoadError.bookNotInDatabase "9999999999999"), DB.empty) :=
  ⟨(claim_C6_load DB.empty "9999999999999").1,
   (claim_C6_load DB.empty "9999999999999").2 (by decide)⟩

/-! ## C7 — the identifier resolver -/

/-- C7: `find_isbn` considers only the first identifier-shaped substring of
the text: on an empty match list it returns nothing; on a first match it
returns the canonical hyphen-free form exactly when the checksum rule holds,
and nothing otherwise (later matches are never consulted); any returned
value is hyphen-free (all digits).  Totality (never throwing) is inherent:
`find_isbn` is a total function. -/
theorem claim_C7_find_isbn (text : String) :
    (get_isbnlike text = [] → find_isbn text = none) ∧
    (∀ m ms, get_isbnlike text = m :: ms →
      (isbnChecksumOk m = true → find_isbn text = some (canonicalIsbn m)) ∧
      (isbnChecksumOk m = false → find_isbn text = none)) ∧
    (∀ c, find_isbn text = some c →
      c.data.all (fun ch => ch.isDigit) = true) := by
  refine ⟨?_, ?_, ?_⟩
  · intro h
    unfold find_isbn
    rw [h]
  · intro m ms h
    unfold find_isbn IsbnNew
    rw [h]
    constructor
    · intro hc
      simp [hc]
    · intro hc
      simp [hc]
  · intro c hc
    unfold find_isbn IsbnNew at hc
    cases hg : get_isbnlike text with
    | nil => rw [hg] at hc; cases hc
    | cons m ms =>
      rw [hg] at hc
      by_cases hok : isbnChecksumOk m = true
      · simp only [hok, if_true] at hc
        have hceq : canonicalIsbn m = c := by
          simpa using hc
        subst hceq
        simp only [canonicalIsbn, List.all_eq_true]
        intro ch hch
        exact (List.mem_filter.mp hch).2
      · simp only [if_neg hok] at hc
        cases hc

/-- C7 (witness): a text with one valid match; a text whose first match
fails the checksum while a later valid match is ignored. -/
theorem claim_C7_witness :
    find_isbn "see 978-0-306-40615-7" = some "9780306406157" ∧
      find_isbn "bad 978-0-306-40615-8 then 9780306406157" = none := by
  constructor
  · have h := ((claim_C7_find_isbn "see 978-0-306-40615-7").2.1
      "978-0-306-40615-7" [] (by decide)).1 (by decide)
    rw [h]
    decide
  · exact ((claim_C7_find_isbn "bad 978-0-306-40615-8 then 9780306406157").2.1
      "978-0-306-40615-8" ["9780306406157"] (by decide)).2 (by decide)

/-! ## C8 — transactional scope semantics -/

/-- C8: `transaction` first issues `BEGIN` (the body runs on a connection
whose trace is extended by `BEGIN` and whose store is untouched); on normal
completion of the body it issues `COMMIT`; on a failure propagating out of
the body it issues `ROLLBACK`, restores the store to its pre-`BEGIN` state,
and re-raises exactly the original failure, unchanged. -/
theorem claim_C8_transaction {σ ε α : Type} (c : TxConn σ)
    (body : TxConn σ → Except ε α × TxConn σ) :
    (txExec c TxStmt.begin).log = c.log ++ [TxStmt.begin] ∧
    (txExec c TxStmt.begin).db = c.db ∧
    (∀ a c1, body (txExec c TxStmt.begin) = (.ok a, c1) →
      transaction body c = (.ok a, ⟨c1.db, c1.log ++ [TxStmt.commit]⟩)) ∧
    (∀ e c1, body (txExec c TxStmt.begin) = (.error e, c1) →
      transaction body c = (.error e, ⟨c.db, c1.log ++ [TxStmt.rollback]⟩)) := by
  refine ⟨rfl, rfl, ?_, ?_⟩
  · intro a c1 h
    simp only [txExec] at h
    simp [transaction, txExec, h]
  · intro e c1 h
    simp only [txExec] at h
    simp [transaction, txExec, h]

/-- C8 (witness): a failing body on a concrete connection — `BEGIN` then
`ROLLBACK` are traced, the store is restored, the original error surfaces. -/
theorem claim_C8_witness :
    transaction (fun c => ((Except.error 7 : Except Nat Unit), { c with db := 99 }))
        (⟨0, []⟩ : TxConn Nat) =
      (Except.error 7, (⟨0, [TxStmt.begin, TxStmt.rollback]⟩ : TxConn Nat)) := by
  have h := (claim_C8_transaction (⟨0, []⟩ : TxConn Nat)
      (fun c => ((Except.error 7 : Except Nat Unit), { c with db := 99 }))).2.2.2 7
      ⟨99, [TxStmt.begin]⟩ rfl
  simpa using h

/-! ## C9 — metadata fetch failure surfacing -/

/-- C9: what `fetch_openlibrary_book` actually does on failure.  When the
HTTP request itself fails, the local `resp` is never bound, so the handler's
`print(resp.status_code)` raises an unbound-local error that replaces the
original failure — only the key and URL get logged, and the error reaching
the caller is not the original one.  When a response is available (here: a
body whose JSON decoding fails), the original failure is re-raised unchanged
after logging key, URL, status and headers — as the claim describes. -/
theorem claim_C9_handler_crash :
    fetch_openlibrary_book (fun _ => Except.error PyErr.networkError) "9780306406157" =
      (Except.error PyErr.unboundLocalError,
        [LogEntry.key "ISBN:9780306406157",
         LogEntry.url
           "https://openlibrary.org/api/books?bibkeys=ISBN:9780306406157&format=json&jscmd=data"]) ∧
    PyErr.unboundLocalError ≠ PyErr.networkError ∧
    fetch_openlibrary_book
        (fun _ => Except.ok ⟨503, [("retry-after", "60")], Except.error PyErr.jsonDecodeError⟩)
        "x" =
      (Except.error PyErr.jsonDecodeError,
        [LogEntry.key "ISBN:x",
         LogEntry.url "https://openlibrary.org/api/books?bibkeys=ISBN:x&format=json&jscmd=data",
         LogEntry.status 503, LogEntry.respHeaders [("retry-after", "60")]]) := by
  refine ⟨rfl, by decide, rfl⟩

/-! ## Connection and loop helpers -/

/-- Without a fault schedule no statement fails. -/
theorem stmtFails_none (c : Conn) : stmtFails none c = false := rfl

/-- Advancing the statement index leaves the store untouched. -/
theorem Conn_bump_db (c : Conn) : (Conn.bump c).db = c.db := rfl

/-- `linkBookAuthor` without faults, unfolded past the fault guard. -/
theorem linkBookAuthor_none (bId aId : Nat) (c : Conn) :
    linkBookAuthor none bId aId c =
      match insertBookAuthorOnConflict c.db bId aId with
      | .error e => (.error e, c.bump)
      | .ok (rid, db) => (.ok (), ⟨db, rid.getD c.lastRowId, c.stmtIdx + 1⟩) := rfl

/-- `linkBookSubject` without faults, unfolded past the fault guard. -/
theorem linkBookSubject_none (bId sId : Nat) (c : Conn) :
    linkBookSubject none bId sId c =
      match insertBookSubjectOnConflict c.db bId sId with
      | .error e => (.error e, c.bump)
      | .ok (rid, db) => (.ok (), ⟨db, rid.getD c.lastRowId, c.stmtIdx + 1⟩) := rfl

/-- `saveAuthor` without faults, unfolded past the fault guards. -/
theorem saveAuthor_none (bId : Nat) (a : Author) (c : Conn) :
    saveAuthor none bId a c =
      match selectAuthorIdByUrl c.db a.url with
      | some aId => linkBookAuthor none bId aId c.bump
      | none =>
        linkBookAuthor none bId ((insertAuthorOnConflictUrl c.db a).1.getD c.lastRowId)
          ⟨(insertAuthorOnConflictUrl c.db a).2,
           (insertAuthorOnConflictUrl c.db a).1.getD c.lastRowId, c.stmtIdx + 2⟩ := rfl

/-- `saveSubject` without faults, unfolded past the fault guards. -/
theorem saveSubject_none (bId : Nat) (s : String) (c : Conn) :
    saveSubject none bId s c =
      match selectSubjectIdByName c.db s with
      | some sId => linkBookSubject none bId sId c.bump
      | none =>
        linkBookSubject none bId ((insertSubjectOnConflict c.db s).1.getD c.lastRowId)
          ⟨(insertSubjectOnConflict c.db s).2,
           (insertSubjectOnConflict c.db s).1.getD c.lastRowId, c.stmtIdx + 2⟩ := rfl

/-- `saveF` without faults, unfolded past the fault guards (the connection is
fresh, so `lastRowId` is `0`; a conflict no-op on the book INSERT therefore
leaves `b_id = 0`). -/
theorem saveF_none_eq (b : Book) (db : DB) :
    saveF none b db =
      match selectBookIdByIsbn db b.isbn with
      | some bId => savePhase2 none b bId ⟨db, 0, 1⟩
      | none =>
        match insertBookOnConflictUrl db b with
        | .error e => (.error e, db)
        | .ok (rid, db2) => savePhase2 none b (rid.getD 0) ⟨db2, rid.getD 0, 2⟩ := rfl

/-- A successful select by author url exhibits a row with the selected id. -/
theorem select_author_any (c : Conn) (u : String) (aId : Nat)
    (hsel : selectAuthorIdByUrl c.db u = some aId) :
    c.db.author.any (fun r => r.id == aId) = true := by
  unfold selectAuthorIdByUrl at hsel
  cases hfind : c.db.author.find? (fun r => r.url == u) with
  | none => rw [hfind] at hsel; cases hsel
  | some r =>
    rw [hfind] at hsel
    simp at hsel
    have hr := List.mem_of_find?_eq_some hfind
    rw [List.any_eq_true]
    exact ⟨r, hr, by simp [hsel]⟩

/-- A successful select by subject name exhibits a row with the selected id. -/
theorem select_subject_any (c : Conn) (s : String) (sId : Nat)
    (hsel : selectSubjectIdByName c.db s = some sId) :
    c.db.subject.any (fun r => r.id == sId) = true := by
  unfold selectSubjectIdByName at hsel
  cases hfind : c.db.subject.find? (fun r => r.sub_name == s) with
  | none => rw [hfind] at hsel; cases hsel
  | some r =>
    rw [hfind] at hsel
    simp at hsel
    have hr := List.mem_of_find?_eq_some hfind
    rw [List.any_eq_true]
    exact ⟨r, hr, by simp [hsel]⟩

/-- When the author url select misses, the conflict clause of the author
INSERT is inert: the row is actually inserted and its fresh rowid returned. -/
theorem insertAuthor_of_select_none (db : DB) (a : Author)
    (hsel : selectAuthorIdByUrl db a.url = none) :
    insertAuthorOnConflictUrl db a =
      (some db.nextAuthorId,
       { db with
           author := db.author ++ [⟨db.nextAuthorId, a.url, a.name⟩],
           nextAuthorId := db.nextAuthorId + 1 }) := by
  have hany : db.author.any (fun r => r.url == a.url) = false := by
    unfold selectAuthorIdByUrl at hsel
    cases hfind : db.author.find? (fun r => r.url == a.url) with
    | some r => rw [hfind] at hsel; cases hsel
    | none => exact any_eq_false_of_find?_none hfind
  unfold insertAuthorOnConflictUrl
  rw [hany]
  simp

/-- When the subject name select misses, the subject INSERT's conflict
clause is inert: the row is actually inserted and its fresh rowid returned. -/
theorem insertSubject_of_select_none (db : DB) (s : String)
    (hsel : selectSubjectIdByName db s = none) :
    insertSubjectOnConflict db s =
      (some db.nextSubjectId,
       { db with
           subject := db.subject ++ [⟨db.nextSubjectId, s⟩],
           nextSubjectId := db.nextSubjectId + 1 }) := by
  have hany : db.subject.any (fun r => r.sub_name == s) = false := by
    unfold selectSubjectIdByName at hsel
    cases hfind : db.subject.find? (fun r => r.sub_name == s) with
    | some r => rw [hfind] at hsel; cases hsel
    | none => exact any_eq_false_of_find?_none hfind
  unfold insertSubjectOnConflict
  rw [hany]
  simp

/-- The `book_author` link insert succeeds whenever both referenced rows
exist (duplicate pairs are no-ops); the book and author tables are
untouched. -/
theorem insertBookAuthor_ok (db : DB) (bId aId : Nat)
    (hb : db.book.any (fun r => r.id == bId) = true)
    (ha : db.author.any (fun r => r.id == aId) = true) :
    ∃ rid db2, insertBookAuthorOnConflict db bId aId = .ok (rid, db2) ∧
      db2.book = db.book ∧ db2.author = db.author ∧ db2.subject = db.subject := by
  unfold insertBookAuthorOnConflict
  by_cases hdup : db.book_author.any (fun p => p == (bId, aId)) = true
  · exact ⟨none, db, by rw [if_pos hdup], rfl, rfl, rfl⟩
  · refine ⟨some db.nextBookAuthorRowid,
      { db with book_author := db.book_author ++ [(bId, aId)],
                nextBookAuthorRowid := db.nextBookAuthorRowid + 1 }, ?_, rfl, rfl, rfl⟩
    rw [if_neg hdup, if_pos (by simp [hb, ha])]

/-- The `book_subject` link insert succeeds whenever both referenced rows
exist. -/
theorem insertBookSubject_ok (db : DB) (bId sId : Nat)
    (hb : db.book.any (fun r => r.id == bId) = true)
    (hs : db.subject.any (fun r => r.id == sId) = true) :
    ∃ rid db2, insertBookSubjectOnConflict db bId sId = .ok (rid, db2) ∧
      db2.book = db.book ∧ db2.author = db.author ∧ db2.subject = db.subject := by
  unfold insertBookSubjectOnConflict
  by_cases hdup : db.book_subject.any (fun p => p == (bId, sId)) = true
  · exact ⟨none, db, by rw [if_pos hdup], rfl, rfl, rfl⟩
  · refine ⟨some db.nextBookSubjectRowid,
      { db with book_subject := db.book_subject ++ [(bId, sId)],
                nextBookSubjectRowid := db.nextBookSubjectRowid + 1 }, ?_, rfl, rfl, rfl⟩
    rw [if_neg hdup, if_pos (by simp [hb, hs])]

/-- The author link statement of the loop completes when the book row and
the author row being linked both exist. -/
theorem linkBookAuthor_ok (bId aId : Nat) (c : Conn)
    (hb : c.db.book.any (fun r => r.id == bId) = true)
    (ha : c.db.author.any (fun r => r.id == aId) = true) :
    ∃ c2, linkBookAuthor none bId aId c = (Except.ok (), c2) ∧
      c2.db.book = c.db.book ∧ c2.db.author = c.db.author := by
  rw [linkBookAuthor_none]
  obtain ⟨rid, db2, hins, hbk, hau, _⟩ := insertBookAuthor_ok c.db bId aId hb ha
  rw [hins]
  exact ⟨_, rfl, hbk, hau⟩

/-- The subject link statement of the loop completes when the book row and
the subject row being linked both exist. -/
theorem linkBookSubject_ok (bId sId : Nat) (c : Conn)
    (hb : c.db.book.any (fun r => r.id == bId) = true)
    (hs : c.db.subject.any (fun r => r.id == sId) = true) :
    ∃ c2, linkBookSubject none bId sId c = (Except.ok (), c2) ∧
      c2.db.book = c.db.book ∧ c2.db.subject = c.db.subject := by
  rw [linkBookSubject_none]
  obtain ⟨rid, db2, hins, hbk, _, hsu⟩ := insertBookSubject_ok c.db bId sId hb hs
  rw [hins]
  exact ⟨_, rfl, hbk, hsu⟩

/-- One author-loop iteration completes whenever the book row exists: the
resolved `a_id` always references an existing author row at the link insert
(found by the preceding lookup, or freshly inserted with `lastrowid` as its
rowid), so the link insert cannot fail on the author side. -/
theorem saveAuthor_ok_of_book (bId : Nat) (a : Author) (c : Conn)
    (hb : c.db.book.any (fun r => r.id == bId) = true) :
    ∃ c2, saveAuthor none bId a c = (Except.ok (), c2) ∧
      c2.db.book = c.db.book := by
  rw [saveAuthor_none]
  cases hsel : selectAuthorIdByUrl c.db a.url with
  | some aId =>
    obtain ⟨c2, hl, hbk, _⟩ :=
      linkBookAuthor_ok bId aId c.bump (by rw [Conn_bump_db]; exact hb)
        (by rw [Conn_bump_db]; exact select_author_any c a.url aId hsel)
    exact ⟨c2, hl, hbk⟩
  | none =>
    rw [insertAuthor_of_select_none c.db a hsel]
    simp only [Option.getD_some]
    have hb2 : ({ c.db with
        author := c.db.author ++ [⟨c.db.nextAuthorId, a.url, a.name⟩],
        nextAuthorId := c.db.nextAuthorId + 1 } : DB).book.any
          (fun r => r.id == bId) = true := hb
    have ha2 : ({ c.db with
        author := c.db.author ++ [⟨c.db.nextAuthorId, a.url, a.name⟩],
        nextAuthorId := c.db.nextAuthorId + 1 } : DB).author.any
          (fun r => r.id == c.db.nextAuthorId) = true := by
      rw [List.any_eq_true]
      exact ⟨⟨c.db.nextAuthorId, a.url, a.name⟩, by simp, by simp⟩
    obtain ⟨c2, hl, hbk, _⟩ := linkBookAuthor_ok bId c.db.nextAuthorId
      ⟨{ c.db with author := c.db.author ++ [⟨c.db.nextAuthorId, a.url, a.name⟩],
                   nextAuthorId := c.db.nextAuthorId + 1 },
       c.db.nextAuthorId, c.stmtIdx + 2⟩ hb2 ha2
    exact ⟨c2, hl, hbk⟩

/-- One subject-loop iteration completes whenever the book row exists. -/
theorem saveSubject_ok_of_book (bId : Nat) (s : String) (c : Conn)
    (hb : c.db.book.any (fun r => r.id == bId) = true) :
    ∃ c2, saveSubject none bId s c = (Except.ok (), c2) ∧
      c2.db.book = c.db.book := by
  rw [saveSubject_none]
  cases hsel : selectSubjectIdByName c.db s with
  | some sId =>
    obtain ⟨c2, hl, hbk, _⟩ :=
      linkBookSubject_ok bId sId c.bump (by rw [Conn_bump_db]; exact hb)
        (by rw [Conn_bump_db]; exact select_subject_any c s sId hsel)
    exact ⟨c2, hl, hbk⟩
  | none =>
    rw [insertSubject_of_select_none c.db s hsel]
    simp only [Option.getD_some]
    have hb2 : ({ c.db with
        subject := c.db.subject ++ [⟨c.db.nextSubjectId, s⟩],
        nextSubjectId := c.db.nextSubjectId + 1 } : DB).book.any
          (fun r => r.id == bId) = true := hb
    have hs2 : ({ c.db with
        subject := c.db.subject ++ [⟨c.db.nextSubjectId, s⟩],
        nextSubjectId := c.db.nextSubjectId + 1 } : DB).subject.any
          (fun r => r.id == c.db.nextSubjectId) = true := by
      rw [List.any_eq_true]
      exact ⟨⟨c.db.nextSubjectId, s⟩, by simp, by simp⟩
    obtain ⟨c2, hl, hbk, _⟩ := linkBookSubject_ok bId c.db.nextSubjectId
      ⟨{ c.db with subject := c.db.subject ++ [⟨c.db.nextSubjectId, s⟩],
                   nextSubjectId := c.db.nextSubjectId + 1 },
       c.db.nextSubjectId, c.stmtIdx + 2⟩ hb2 hs2
    exact ⟨c2, hl, hbk⟩

/-- The whole author loop completes whenever the book row exists. -/
theorem saveAuthors_ok_of_book (bId : Nat) (as : List Author) :
    ∀ c : Conn, c.db.book.any (fun r => r.id == bId) = true →
      ∃ c2, saveAuthors none bId as c = (Except.ok (), c2) ∧
        c2.db.book = c.db.book := by
  induction as with
  | nil => exact fun c _ => ⟨c, rfl, rfl⟩
  | cons a as ih =>
    intro c hb
    obtain ⟨c1, h1, hbk1⟩ := saveAuthor_ok_of_book bId a c hb
    obtain ⟨c2, h2, hbk2⟩ := ih c1 (by rw [hbk1]; exact hb)
    refine ⟨c2, ?_, by rw [hbk2, hbk1]⟩
    simp only [saveAuthors]
    rw [h1]
    exact h2

/-- The whole subject loop completes whenever the book row exists. -/
theorem saveSubjects_ok_of_book (bId : Nat) (ss : List String) :
    ∀ c : Conn, c.db.book.any (fun r => r.id == bId) = true →
      ∃ c2, saveSubjects none bId ss c = (Except.ok (), c2) ∧
        c2.db.book = c.db.book := by
  induction ss with
  | nil => exact fun c _ => ⟨c, rfl, rfl⟩
  | cons s ss ih =>
    intro c hb
    obtain ⟨c1, h1, hbk1⟩ := saveSubject_ok_of_book bId s c hb
    obtain ⟨c2, h2, hbk2⟩ := ih c1 (by rw [hbk1]; exact hb)
    refine ⟨c2, ?_, by rw [hbk2, hbk1]⟩
    simp only [saveSubjects]
    rw [h1]
    exact h2

/-! ## C10 — link-insert safety in the author and subject loops -/

/-- C10: in the (sequential, single-writer) author and subject loops of
`save`, whenever the book identity references an existing row, every
iteration completes: the entity identity used by each link insert references
a row that exists at that point, so the link inserts never fail with a
foreign-key violation on the `a_id`/`s_id` side.  Moreover, whenever the
preceding lookup missed, the insert's conflict branch is unreachable — the
row is genuinely inserted and `lastrowid` is its fresh rowid. -/
theorem claim_C10_link_safety (bId : Nat) (as : List Author) (ss : List String)
    (c : Conn) (hb : c.db.book.any (fun r => r.id == bId) = true) :
    (saveAuthors none bId as c).1 = Except.ok () ∧
      (saveSubjects none bId ss c).1 = Except.ok () ∧
      (∀ a : Author, selectAuthorIdByUrl c.db a.url = none →
        (insertAuthorOnConflictUrl c.db a).1 = some c.db.nextAuthorId) ∧
      (∀ s : String, selectSubjectIdByName c.db s = none →
        (insertSubjectOnConflict c.db s).1 = some c.db.nextSubjectId) := by
  obtain ⟨c2, h2, _⟩ := saveAuthors_ok_of_book bId as c hb
  obtain ⟨c3, h3, _⟩ := saveSubjects_ok_of_book bId ss c hb
  refine ⟨by rw [h2], by rw [h3], ?_, ?_⟩
  · intro a hsel
    rw [insertAuthor_of_select_none c.db a hsel]
  · intro s hsel
    rw [insertSubject_of_select_none c.db s hsel]

/-- C10 (witness): the loops at a concrete store holding a book row. -/
theorem claim_C10_witness :
    (saveAuthors none 1 [⟨"a9", "Z"⟩] ⟨exDb1, 0, 0⟩).1 = Except.ok () ∧
      (saveSubjects none 1 ["S9"] ⟨exDb1, 0, 0⟩).1 = Except.ok () :=
  ⟨(claim_C10_link_safety 1 [⟨"a9", "Z"⟩] ["S9"] ⟨exDb1, 0, 0⟩ (by decide)).1,
   (claim_C10_link_safety 1 [⟨"a9", "Z"⟩] ["S9"] ⟨exDb1, 0, 0⟩ (by decide)).2.1⟩

/-! ## Store well-formedness -/

/-- The invariants of a well-formed store: pairwise-distinct keys and ids in
each entity table, ids within `[1, next)`, duplicate-free link tables whose
two sides both resolve to existing rows. -/
structure DB.WF (db : DB) : Prop where
  bookPw : db.book.Pairwise (fun r s => r.id ≠ s.id ∧ r.isbn ≠ s.isbn ∧ r.url ≠ s.url)
  bookIds : ∀ r ∈ db.book, 1 ≤ r.id ∧ r.id < db.nextBookId
  bookNext : 1 ≤ db.nextBookId
  authorPw : db.author.Pairwise (fun r s => r.id ≠ s.id ∧ r.url ≠ s.url)
  authorIds : ∀ r ∈ db.author, 1 ≤ r.id ∧ r.id < db.nextAuthorId
  authorNext : 1 ≤ db.nextAuthorId
  subjectPw : db.subject.Pairwise (fun r s => r.id ≠ s.id ∧ r.sub_name ≠ s.sub_name)
  subjectIds : ∀ r ∈ db.subject, 1 ≤ r.id ∧ r.id < db.nextSubjectId
  subjectNext : 1 ≤ db.nextSubjectId
  baNodup : db.book_author.Nodup
  baFk : ∀ p ∈ db.book_author,
    (∃ r ∈ db.book, r.id = p.1) ∧ (∃ r ∈ db.author, r.id = p.2)
  bsNodup : db.book_subject.Nodup
  bsFk : ∀ p ∈ db.book_subject,
    (∃ r ∈ db.book, r.id = p.1) ∧ (∃ r ∈ db.subject, r.id = p.2)

/-- The empty store is well-formed. -/
theorem wf_empty : DB.empty.WF := by
  constructor <;> simp [DB.empty]

/-- Extending a pairwise list by one element related to everything. -/
theorem pairwise_append_single {α : Type} {R : α → α → Prop} {l : List α} {x : α}
    (hl : l.Pairwise R) (hx : ∀ y ∈ l, R y x) : (l ++ [x]).Pairwise R := by
  rw [List.pairwise_append]
  exact ⟨hl, List.pairwise_singleton R x, fun y hy z hz => by
    rw [List.mem_singleton] at hz
    subst hz
    exact hx y hy⟩

/-- Extending a duplicate-free list by a fresh element. -/
theorem nodup_append_single {α : Type} {l : List α} {x : α}
    (hl : l.Nodup) (hx : x ∉ l) : (l ++ [x]).Nodup := by
  rw [List.nodup_append]
  refine ⟨hl, List.nodup_singleton x, ?_⟩
  intro y hy hyx
  rw [List.mem_singleton] at hyx
  subst hyx
  exact hx hy

/-- A true `any` over a `== k` id test exhibits a member with that id. -/
theorem exists_of_any_beq {α : Type} (key : α → Nat) {l : List α} {k : Nat}
    (h : l.any (fun r => key r == k) = true) : ∃ r ∈ l, key r = k := by
  rw [List.any_eq_true] at h
  obtain ⟨r, hr, hk⟩ := h
  exact ⟨r, hr, by simpa using hk⟩

/-- A false pair-membership `any` means the pair is absent. -/
theorem not_mem_of_any_pair_false {l : List (Nat × Nat)} {p : Nat × Nat}
    (h : l.any (fun q => q == p) = true → False) : p ∉ l := by
  intro hp
  exact h (by rw [List.any_eq_true]; exact ⟨p, hp, by simp⟩)

/-- The book INSERT preserves well-formedness. -/
theorem insertBook_wf {db : DB} {b : Book} {rid : Option Nat} {db2 : DB}
    (h : db.WF) (he : insertBookOnConflictUrl db b = .ok (rid, db2)) : db2.WF := by
  unfold insertBookOnConflictUrl at he
  by_cases hurl : db.book.any (fun r => r.url == b.url) = true
  · rw [if_pos hurl] at he
    cases he
    exact h
  · rw [if_neg hurl] at he
    by_cases hisbn : db.book.any (fun r => r.isbn == b.isbn) = true
    · rw [if_pos hisbn] at he
      cases he
    · rw [if_neg hisbn] at he
      cases he
      have hurl2 : ∀ r ∈ db.book, r.url ≠ b.url := by
        intro r hr
        rw [Bool.not_eq_true, List.any_eq_false] at hurl
        simpa using hurl r hr
      have hisbn2 : ∀ r ∈ db.book, r.isbn ≠ b.isbn := by
        intro r hr
        rw [Bool.not_eq_true, List.any_eq_false] at hisbn
        simpa using hisbn r hr
      constructor
      · exact pairwise_append_single h.bookPw (fun r hr =>
          ⟨Nat.ne_of_lt (h.bookIds r hr).2, hisbn2 r hr, hurl2 r hr⟩)
      · intro r hr
        rcases List.mem_append.mp hr with hr | hr
        · have := h.bookIds r hr
          exact ⟨this.1, Nat.lt_succ_of_lt this.2⟩
        · rw [List.mem_singleton] at hr
          subst hr
          exact ⟨h.bookNext, Nat.lt_succ_self _⟩
      · exact Nat.le_succ_of_le h.bookNext
      · exact h.authorPw
      · exact h.authorIds
      · exact h.authorNext
      · exact h.subjectPw
      · exact h.subjectIds
      · exact h.subjectNext
      · exact h.baNodup
      · intro p hp
        obtain ⟨⟨r1, hr1, hid1⟩, hex2⟩ := h.baFk p hp
        exact ⟨⟨r1, List.mem_append_left _ hr1, hid1⟩, hex2⟩
      · exact h.bsNodup
      · intro p hp
        obtain ⟨⟨r1, hr1, hid1⟩, hex2⟩ := h.bsFk p hp
        exact ⟨⟨r1, List.mem_append_left _ hr1, hid1⟩, hex2⟩

/-- The author INSERT preserves well-formedness (both the conflict no-op and
the actual insert). -/
theorem insertAuthor_wf {db : DB} {a : Author} (h : db.WF) :
    ((insertAuthorOnConflictUrl db a).2).WF := by
  unfold insertAuthorOnConflictUrl
  by_cases hurl : db.author.any (fun r => r.url == a.url) = true
  · rw [if_pos hurl]
    exact h
  · rw [if_neg hurl]
    have hurl2 : ∀ r ∈ db.author, r.url ≠ a.url := by
      intro r hr
      rw [Bool.not_eq_true, List.any_eq_false] at hurl
      simpa using hurl r hr
    constructor
    · exact h.bookPw
    · exact h.bookIds
    · exact h.bookNext
    · exact pairwise_append_single h.authorPw (fun r hr =>
        ⟨Nat.ne_of_lt (h.authorIds r hr).2, hurl2 r hr⟩)
    · intro r hr
      rcases List.mem_append.mp hr with hr | hr
      · have := h.authorIds r hr
        exact ⟨this.1, Nat.lt_succ_of_lt this.2⟩
      · rw [List.mem_singleton] at hr
        subst hr
        exact ⟨h.authorNext, Nat.lt_succ_self _⟩
    · exact Nat.le_succ_of_le h.authorNext
    · exact h.subjectPw
    · exact h.subjectIds
    · exact h.subjectNext
    · exact h.baNodup
    · intro p hp
      obtain ⟨hex1, ⟨r2, hr2, hid2⟩⟩ := h.baFk p hp
      exact ⟨hex1, ⟨r2, List.mem_append_left _ hr2, hid2⟩⟩
    · exact h.bsNodup
    · exact h.bsFk

/-- The subject INSERT preserves well-formedness. -/
theorem insertSubject_wf {db : DB} {s : String} (h : db.WF) :
    ((insertSubjectOnConflict db s).2).WF := by
  unfold insertSubjectOnConflict
  by_cases hn : db.subject.any (fun r => r.sub_name == s) = true
  · rw [if_pos hn]
    exact h
  · rw [if_neg hn]
    have hn2 : ∀ r ∈ db.subject, r.sub_name ≠ s := by
      intro r hr
      rw [Bool.not_eq_true, List.any_eq_false] at hn
      simpa using hn r hr
    constructor
    · exact h.bookPw
    · exact h.bookIds
    · exact h.bookNext
    · exact h.authorPw
    · exact h.authorIds
    · exact h.authorNext
    · exact pairwise_append_single h.subjectPw (fun r hr =>
        ⟨Nat.ne_of_lt (h.subjectIds r hr).2, hn2 r hr⟩)
    · intro r hr
      rcases List.mem_append.mp hr with hr | hr
      · have := h.subjectIds r hr
        exact ⟨this.1, Nat.lt_succ_of_lt this.2⟩
      · rw [List.mem_singleton] at hr
        subst hr
        exact ⟨h.subjectNext, Nat.lt_succ_self _⟩
    · exact Nat.le_succ_of_le h.subjectNext
    · exact h.baNodup
    · exact h.baFk
    · exact h.bsNodup
    · intro p hp
      obtain ⟨hex1, ⟨r2, hr2, hid2⟩⟩ := h.bsFk p hp
      exact ⟨hex1, ⟨r2, List.mem_append_left _ hr2, hid2⟩⟩

/-- The `book_author` link INSERT preserves well-formedness. -/
theorem insertBookAuthor_wf {db : DB} {bId aId : Nat} {rid : Option Nat} {db2 : DB}
    (h : db.WF) (he : insertBookAuthorOnConflict db bId aId = .ok (rid, db2)) :
    db2.WF := by
  unfold insertBookAuthorOnConflict at he
  by_cases hdup : db.book_author.any (fun p => p == (bId, aId)) = true
  · rw [if_pos hdup] at he
    cases he
    exact h
  · rw [if_neg hdup] at he
    by_cases hfk : (db.book.any (fun r => r.id == bId) &&
        db.author.any (fun r => r.id == aId)) = true
    · rw [if_pos hfk] at he
      cases he
      rw [Bool.and_eq_true] at hfk
      constructor
      · exact h.bookPw
      · exact h.bookIds
      · exact h.bookNext
      · exact h.authorPw
      · exact h.authorIds
      · exact h.authorNext
      · exact h.subjectPw
      · exact h.subjectIds
      · exact h.subjectNext
      · exact nodup_append_single h.baNodup (not_mem_of_any_pair_false
          (fun hx => hdup hx))
      · intro p hp
        rcases List.mem_append.mp hp with hp | hp
        · exact h.baFk p hp
        · rw [List.mem_singleton] at hp
          subst hp
          exact ⟨exists_of_any_beq (fun r => r.id) hfk.1,
                 exists_of_any_beq (fun r => r.id) hfk.2⟩
      · exact h.bsNodup
      · exact h.bsFk
    · rw [if_neg hfk] at he
      cases he

/-- The `book_subject` link INSERT preserves well-formedness. -/
theorem insertBookSubject_wf {db : DB} {bId sId : Nat} {rid : Option Nat} {db2 : DB}
    (h : db.WF) (he : insertBookSubjectOnConflict db bId sId = .ok (rid, db2)) :
    db2.WF := by
  unfold insertBookSubjectOnConflict at he
  by_cases hdup : db.book_subject.any (fun p => p == (bId, sId)) = true
  · rw [if_pos hdup] at he
    cases he
    exact h
  · rw [if_neg hdup] at he
    by_cases hfk : (db.book.any (fun r => r.id == bId) &&
        db.subject.any (fun r => r.id == sId)) = true
    · rw [if_pos hfk] at he
      cases he
      rw [Bool.and_eq_true] at hfk
      constructor
      · exact h.bookPw
      · exact h.bookIds
      · exact h.bookNext
      · exact h.authorPw
      · exact h.authorIds
      · exact h.authorNext
      · exact h.subjectPw
      · exact h.subjectIds
      · exact h.subjectNext
      · exact h.baNodup
      · exact h.baFk
      · exact nodup_append_single h.bsNodup (not_mem_of_any_pair_false
          (fun hx => hdup hx))
      · intro p hp
        rcases List.mem_append.mp hp with hp | hp
        · exact h.bsFk p hp
        · rw [List.mem_singleton] at hp
          subst hp
          exact ⟨exists_of_any_beq (fun r => r.id) hfk.1,
                 exists_of_any_beq (fun r => r.id) hfk.2⟩
    · rw [if_neg hfk] at he
      cases he

/-- `linkBookAuthor` unfolded (general fault schedule). -/
theorem linkBookAuthor_eq (f : Option Nat) (bId aId : Nat) (c : Conn) :
    linkBookAuthor f bId aId c =
      if stmtFails f c then (.error .injected, c.bump)
      else
        match insertBookAuthorOnConflict c.db bId aId with
        | .error e => (.error e, c.bump)
        | .ok (rid, db) => (.ok (), ⟨db, rid.getD c.lastRowId, c.stmtIdx + 1⟩) := rfl

/-- `linkBookSubject` unfolded (general fault schedule). -/
theorem linkBookSubject_eq (f : Option Nat) (bId sId : Nat) (c : Conn) :
    linkBookSubject f bId sId c =
      if stmtFails f c then (.error .injected, c.bump)
      else
        match insertBookSubjectOnConflict c.db bId sId with
        | .error e => (.error e, c.bump)
        | .ok (rid, db) => (.ok (), ⟨db, rid.getD c.lastRowId, c.stmtIdx + 1⟩) := rfl

/-- `saveAuthor` unfolded (general fault schedule). -/
theorem saveAuthor_eq (f : Option Nat) (bId : Nat) (a : Author) (c : Conn) :
    saveAuthor f bId a c =
      if stmtFails f c then (.error .injected, c.bump)
      else
        match selectAuthorIdByUrl c.db a.url with
        | some aId => linkBookAuthor f bId aId c.bump
        | none =>
          if stmtFails f c.bump then (.error .injected, c.bump.bump)
          else
            linkBookAuthor f bId ((insertAuthorOnConflictUrl c.db a).1.getD c.lastRowId)
              ⟨(insertAuthorOnConflictUrl c.db a).2,
               (insertAuthorOnConflictUrl c.db a).1.getD c.lastRowId,
               c.stmtIdx + 2⟩ := rfl

/-- `saveSubject` unfolded (general fault schedule). -/
theorem saveSubject_eq (f : Option Nat) (bId : Nat) (s : String) (c : Conn) :
    saveSubject f bId s c =
      if stmtFails f c then (.error .injected, c.bump)
      else
        match selectSubjectIdByName c.db s with
        | some sId => linkBookSubject f bId sId c.bump
        | none =>
          if stmtFails f c.bump then (.error .injected, c.bump.bump)
          else
            linkBookSubject f bId ((insertSubjectOnConflict c.db s).1.getD c.lastRowId)
              ⟨(insertSubjectOnConflict c.db s).2,
               (insertSubjectOnConflict c.db s).1.getD c.lastRowId,
               c.stmtIdx + 2⟩ := rfl

/-- `saveF` unfolded (general fault schedule). -/
theorem saveF_eq (f : Option Nat) (b : Book) (db : DB) :
    saveF f b db =
      if stmtFails f ⟨db, 0, 0⟩ then (.error .injected, db)
      else
        match selectBookIdByIsbn db b.isbn with
        | some bId => savePhase2 f b bId ⟨db, 0, 1⟩
        | none =>
          if stmtFails f ⟨db, 0, 1⟩ then (.error .injected, db)
          else
            match insertBookOnConflictUrl db b with
            | .error e => (.error e, db)
            | .ok (rid, db2) => savePhase2 f b (rid.getD 0) ⟨db2, rid.getD 0, 2⟩ := rfl

/-- The author link statement preserves well-formedness on every path. -/
theorem linkBookAuthor_wf (f : Option Nat) (bId aId : Nat) (c : Conn)
    (h : c.db.WF) : ((linkBookAuthor f bId aId c).2).db.WF := by
  rw [linkBookAuthor_eq]
  by_cases hf : stmtFails f c = true
  · rw [if_pos hf]
    exact h
  · rw [if_neg hf]
    cases he : insertBookAuthorOnConflict c.db bId aId with
    | error e => exact h
    | ok v =>
      obtain ⟨rid, db2⟩ := v
      exact insertBookAuthor_wf h he

/-- The subject link statement preserves well-formedness on every path. -/
theorem linkBookSubject_wf (f : Option Nat) (bId sId : Nat) (c : Conn)
    (h : c.db.WF) : ((linkBookSubject f bId sId c).2).db.WF := by
  rw [linkBookSubject_eq]
  by_cases hf : stmtFails f c = true
  · rw [if_pos hf]
    exact h
  · rw [if_neg hf]
    cases he : insertBookSubjectOnConflict c.db bId sId with
    | error e => exact h
    | ok v =>
      obtain ⟨rid, db2⟩ := v
      exact insertBookSubject_wf h he

/-- One author-loop iteration preserves well-formedness on every path. -/
theorem saveAuthor_wf (f : Option Nat) (bId : Nat) (a : Author) (c : Conn)
    (h : c.db.WF) : ((saveAuthor f bId a c).2).db.WF := by
  rw [saveAuthor_eq]
  by_cases hf : stmtFails f c = true
  · rw [if_pos hf]
    exact h
  · rw [if_neg hf]
    cases hsel : selectAuthorIdByUrl c.db a.url with
    | some aId => exact linkBookAuthor_wf f bId aId c.bump h
    | none =>
      by_cases hf2 : stmtFails f c.bump = true
      · rw [if_pos hf2]
        exact h
      · rw [if_neg hf2]
        exact linkBookAuthor_wf f bId _ _ (insertAuthor_wf h)

/-- One subject-loop iteration preserves well-formedness on every path. -/
theorem saveSubject_wf (f : Option Nat) (bId : Nat) (s : String) (c : Conn)
    (h : c.db.WF) : ((saveSubject f bId s c).2).db.WF := by
  rw [saveSubject_eq]
  by_cases hf : stmtFails f c = true
  · rw [if_pos hf]
    exact h
  · rw [if_neg hf]
    cases hsel : selectSubjectIdByName c.db s with
    | some sId => exact linkBookSubject_wf f bId sId c.bump h
    | none =>
      by_cases hf2 : stmtFails f c.bump = true
      · rw [if_pos hf2]
        exact h
      · rw [if_neg hf2]
        exact linkBookSubject_wf f bId _ _ (insertSubject_wf h)

/-- The author loop preserves well-formedness on every path. -/
theorem saveAuthors_wf (f : Option Nat) (bId : Nat) (as : List Author) :
    ∀ c : Conn, c.db.WF → (((saveAuthors f bId as c).2).db).WF := by
  induction as with
  | nil => exact fun c h => h
  | cons a as ih =>
    intro c h
    have h1 := saveAuthor_wf f bId a c h
    simp only [saveAuthors]
    cases hit : saveAuthor f bId a c with
    | mk res c1 =>
      rw [hit] at h1
      cases res with
      | ok u =>
        cases u
        exact ih c1 h1
      | error e => exact h1

/-- The subject loop preserves well-formedness on every path. -/
theorem saveSubjects_wf (f : Option Nat) (bId : Nat) (ss : List String) :
    ∀ c : Conn, c.db.WF → (((saveSubjects f bId ss c).2).db).WF := by
  induction ss with
  | nil => exact fun c h => h
  | cons s ss ih =>
    intro c h
    have h1 := saveSubject_wf f bId s c h
    simp only [saveSubjects]
    cases hit : saveSubject f bId s c with
    | mk res c1 =>
      rw [hit] at h1
      cases res with
      | ok u =>
        cases u
        exact ih c1 h1
      | error e => exact h1

/-- The author/subject phase preserves well-formedness on every path. -/
theorem savePhase2_wf (f : Option Nat) (b : Book) (bId : Nat) (c : Conn)
    (h : c.db.WF) : ((savePhase2 f b bId c).2).WF := by
  unfold savePhase2
  split
  · next e c2 heq =>
    have h1 := saveAuthors_wf f bId b.authors c h
    rw [heq] at h1
    exact h1
  · next c2 heq =>
    have h1 := saveAuthors_wf f bId b.authors c h
    rw [heq] at h1
    split
    · next e c3 heq2 =>
      have h2 := saveSubjects_wf f bId b.subjects c2 h1
      rw [heq2] at h2
      exact h2
    · next c3 heq2 =>
      have h2 := saveSubjects_wf f bId b.subjects c2 h1
      rw [heq2] at h2
      exact h2

/-- A whole `save` call — faulted anywhere or fault-free — preserves
well-formedness of the store. -/
theorem saveF_wf (f : Option Nat) (b : Book) (db : DB) (h : db.WF) :
    ((saveF f b db).2).WF := by
  rw [saveF_eq]
  by_cases hf : stmtFails f ⟨db, 0, 0⟩ = true
  · rw [if_pos hf]
    exact h
  · rw [if_neg hf]
    cases hsel : selectBookIdByIsbn db b.isbn with
    | some bId => exact savePhase2_wf f b bId ⟨db, 0, 1⟩ h
    | none =>
      by_cases hf2 : stmtFails f ⟨db, 0, 1⟩ = true
      · rw [if_pos hf2]
        exact h
      · rw [if_neg hf2]
        cases hins : insertBookOnConflictUrl db b with
        | error e => exact h
        | ok v =>
          obtain ⟨rid, db2⟩ := v
          exact savePhase2_wf f b (rid.getD 0) ⟨db2, rid.getD 0, 2⟩
            (insertBook_wf h hins)

/-- `Book.from_db` returns the store unchanged (helper shared by several
claims). -/
theorem from_db_snd (db : DB) (isbn : String) : (Book.from_db db isbn).2 = db := by
  unfold Book.from_db
  cases db.book.find? (fun r => r.isbn == isbn) <;> rfl

/-- The store states reachable from the empty store by any sequence of
`save` calls (fault-free or faulted anywhere) and `load` calls. -/
inductive Reachable : DB → Prop where
  | empty : Reachable DB.empty
  | save (b : Book) (f : Option Nat) {db : DB} (h : Reachable db) :
      Reachable (saveF f b db).2
  | load (isbn : String) {db : DB} (h : Reachable db) :
      Reachable (Book.from_db db isbn).2

/-- Every reachable store is well-formed. -/
theorem reachable_wf {db : DB} (h : Reachable db) : db.WF := by
  induction h with
  | empty => exact wf_empty
  | save b f h ih => exact saveF_wf f b _ ih
  | load isbn h ih =>
    rw [from_db_snd]
    exact ih

/-! ## C5 — uniqueness invariants -/

/-- First of two distinct books sharing an author url and a subject name. -/
def bShared1 : Book := ⟨"u3", "i3", "T3", none, [⟨"au", "A"⟩], ["S"], none⟩

/-- Second of the two; distinct `url`/`isbn`, same author url, same subject. -/
def bShared2 : Book := ⟨"u4", "i4", "T4", none, [⟨"au", "A"⟩], ["S"], none⟩

/-- The store after saving both shared-entity books into the empty store. -/
def dbShared : DB := (bShared2.save (bShared1.save DB.empty).2).2

/-- C5: in every store reachable from the empty store by `save` calls
(fault-free or failing anywhere) and `load` calls, there is at most one book
row per isbn and per url, at most one author row per url, at most one
subject row per name, and no duplicate link pairs; and saving two distinct
books sharing one author url and one subject name yields exactly one author
row and one subject row, each linked to both book rows. -/
theorem claim_C5_uniqueness :
    (∀ db : DB, Reachable db →
      (∀ r ∈ db.book, ∀ s ∈ db.book, r.isbn = s.isbn ∨ r.url = s.url → r = s) ∧
      (∀ r ∈ db.author, ∀ s ∈ db.author, r.url = s.url → r = s) ∧
      (∀ r ∈ db.subject, ∀ s ∈ db.subject, r.sub_name = s.sub_name → r = s) ∧
      db.book_author.Nodup ∧ db.book_subject.Nodup) ∧
    (dbShared.author = [⟨1, "au", "A"⟩] ∧ dbShared.subject = [⟨1, "S"⟩] ∧
      (1, 1) ∈ dbShared.book_author ∧ (2, 1) ∈ dbShared.book_author ∧
      (1, 1) ∈ dbShared.book_subject ∧ (2, 1) ∈ dbShared.book_subject) := by
  constructor
  · intro db hreach
    have hwf := reachable_wf hreach
    refine ⟨?_, ?_, ?_, hwf.baNodup, hwf.bsNodup⟩
    · intro r hr s hs hkey
      by_contra hne
      have := hwf.bookPw.forall
        (fun x y h => ⟨h.1.symm, h.2.1.symm, h.2.2.symm⟩) hr hs hne
      rcases hkey with hk | hk
      · exact this.2.1 hk
      · exact this.2.2 hk
    · intro r hr s hs hkey
      by_contra hne
      have := hwf.authorPw.forall
        (fun x y h => ⟨h.1.symm, h.2.symm⟩) hr hs hne
      exact this.2 hkey
    · intro r hr s hs hkey
      by_contra hne
      have := hwf.subjectPw.forall
        (fun x y h => ⟨h.1.symm, h.2.symm⟩) hr hs hne
      exact this.2 hkey
  · refine ⟨by decide, by decide, by decide, by decide, by decide, by decide⟩

/-- C5 (witness): the invariant applied to a concrete reachable store. -/
theorem claim_C5_witness :
    ((bShared1.save DB.empty).2).book_author.Nodup :=
  ((claim_C5_uniqueness.1 (bShared1.save DB.empty).2
    (Reachable.save bShared1 none Reachable.empty)).2.2.2).1

/-! ## Frame lemmas: what each part of `save` can and cannot touch -/

/-- The author link statement leaves every table except `book_author`
untouched, and only ever appends to `book_author`. -/
theorem linkBookAuthor_frame (f : Option Nat) (bId aId : Nat) (c : Conn) :
    ((linkBookAuthor f bId aId c).2).db.book = c.db.book ∧
    ((linkBookAuthor f bId aId c).2).db.author = c.db.author ∧
    ((linkBookAuthor f bId aId c).2).db.subject = c.db.subject ∧
    ((linkBookAuthor f bId aId c).2).db.book_subject = c.db.book_subject ∧
    (∃ e, ((linkBookAuthor f bId aId c).2).db.book_author = c.db.book_author ++ e) := by
  rw [linkBookAuthor_eq]
  by_cases hf : stmtFails f c = true
  · rw [if_pos hf]
    exact ⟨rfl, rfl, rfl, rfl, ⟨[], by simp [Conn.bump]⟩⟩
  · rw [if_neg hf]
    unfold insertBookAuthorOnConflict
    by_cases hdup : c.db.book_author.any (fun p => p == (bId, aId)) = true
    · rw [if_pos hdup]
      exact ⟨rfl, rfl, rfl, rfl, ⟨[], by simp [Conn.bump]⟩⟩
    · rw [if_neg hdup]
      by_cases hfk : (c.db.book.any (fun r => r.id == bId) &&
          c.db.author.any (fun r => r.id == aId)) = true
      · rw [if_pos hfk]
        exact ⟨rfl, rfl, rfl, rfl, ⟨[(bId, aId)], rfl⟩⟩
      · rw [if_neg hfk]
        exact ⟨rfl, rfl, rfl, rfl, ⟨[], by simp [Conn.bump]⟩⟩

/-- The subject link statement leaves every table except `book_subject`
untouched, and only ever appends to `book_subject`. -/
theorem linkBookSubject_frame (f : Option Nat) (bId sId : Nat) (c : Conn) :
    ((linkBookSubject f bId sId c).2).db.book = c.db.book ∧
    ((linkBookSubject f bId sId c).2).db.author = c.db.author ∧
    ((linkBookSubject f bId sId c).2).db.subject = c.db.subject ∧
    ((linkBookSubject f bId sId c).2).db.book_author = c.db.book_author ∧
    (∃ e, ((linkBookSubject f bId sId c).2).db.book_subject = c.db.book_subject ++ e) := by
  rw [linkBookSubject_eq]
  by_cases hf : stmtFails f c = true
  · rw [if_pos hf]
    exact ⟨rfl, rfl, rfl, rfl, ⟨[], by simp [Conn.bump]⟩⟩
  · rw [if_neg hf]
    unfold insertBookSubjectOnConflict
    by_cases hdup : c.db.book_subject.any (fun p => p == (bId, sId)) = true
    · rw [if_pos hdup]
      exact ⟨rfl, rfl, rfl, rfl, ⟨[], by simp [Conn.bump]⟩⟩
    · rw [if_neg hdup]
      by_cases hfk : (c.db.book.any (fun r => r.id == bId) &&
          c.db.subject.any (fun r => r.id == sId)) = true
      · rw [if_pos hfk]
        exact ⟨rfl, rfl, rfl, rfl, ⟨[(bId, sId)], rfl⟩⟩
      · rw [if_neg hfk]
        exact ⟨rfl, rfl, rfl, rfl, ⟨[], by simp [Conn.bump]⟩⟩

/-- One author-loop iteration leaves book, subject and `book_subject`
untouched, and only appends to `author` and `book_author`. -/
theorem saveAuthor_frame (f : Option Nat) (bId : Nat) (a : Author) (c : Conn) :
    ((saveAuthor f bId a c).2).db.book = c.db.book ∧
    ((saveAuthor f bId a c).2).db.subject = c.db.subject ∧
    ((saveAuthor f bId a c).2).db.book_subject = c.db.book_subject ∧
    (∃ e, ((saveAuthor f bId a c).2).db.author = c.db.author ++ e) ∧
    (∃ e, ((saveAuthor f bId a c).2).db.book_author = c.db.book_author ++ e) := by
  rw [saveAuthor_eq]
  by_cases hf : stmtFails f c = true
  · rw [if_pos hf]
    exact ⟨rfl, rfl, rfl, ⟨[], by simp [Conn.bump]⟩, ⟨[], by simp [Conn.bump]⟩⟩
  · rw [if_neg hf]
    cases hsel : selectAuthorIdByUrl c.db a.url with
    | some aId =>
      obtain ⟨h1, h2, h3, h4, h5⟩ := linkBookAuthor_frame f bId aId c.bump
      refine ⟨h1, h3, h4, ⟨[], ?_⟩, h5⟩
      rw [List.append_nil, h2, Conn_bump_db]
    | none =>
      by_cases hf2 : stmtFails f c.bump = true
      · rw [if_pos hf2]
        exact ⟨rfl, rfl, rfl, ⟨[], by simp [Conn.bump]⟩, ⟨[], by simp [Conn.bump]⟩⟩
      · rw [if_neg hf2]
        cases hins : insertAuthorOnConflictUrl c.db a with
        | mk rid db2 =>
          have hdb2 : db2.book = c.db.book ∧ db2.subject = c.db.subject ∧
              db2.book_subject = c.db.book_subject ∧
              db2.book_author = c.db.book_author ∧
              ∃ e, db2.author = c.db.author ++ e := by
            unfold insertAuthorOnConflictUrl at hins
            by_cases hany : c.db.author.any (fun r => r.url == a.url) = true
            · rw [if_pos hany] at hins
              cases hins
              exact ⟨rfl, rfl, rfl, rfl, ⟨[], by simp⟩⟩
            · rw [if_neg hany] at hins
              cases hins
              exact ⟨rfl, rfl, rfl, rfl, ⟨[⟨c.db.nextAuthorId, a.url, a.name⟩], rfl⟩⟩
          obtain ⟨hb2, hs2, hbs2, hba2, e1, he1⟩ := hdb2
          obtain ⟨h1, h2, h3, h4, h5⟩ := linkBookAuthor_frame f bId
            (rid.getD c.lastRowId) ⟨db2, rid.getD c.lastRowId, c.stmtIdx + 2⟩
          refine ⟨?_, ?_, ?_, ?_, ?_⟩
          · rw [h1]; exact hb2
          · rw [h3]; exact hs2
          · rw [h4]; exact hbs2
          · exact ⟨e1, by rw [h2]; exact he1⟩
          · obtain ⟨e2, he2⟩ := h5
            exact ⟨e2, by rw [he2]; rw [show (⟨db2, rid.getD c.lastRowId,
              c.stmtIdx + 2⟩ : Conn).db.book_author = db2.book_author from rfl, hba2]⟩

/-- One subject-loop iteration leaves book, author and `book_author`
untouched, and only appends to `subject` and `book_subject`. -/
theorem saveSubject_frame (f : Option Nat) (bId : Nat) (s : String) (c : Conn) :
    ((saveSubject f bId s c).2).db.book = c.db.book ∧
    ((saveSubject f bId s c).2).db.author = c.db.author ∧
    ((saveSubject f bId s c).2).db.book_author = c.db.book_author ∧
    (∃ e, ((saveSubject f bId s c).2).db.subject = c.db.subject ++ e) ∧
    (∃ e, ((saveSubject f bId s c).2).db.book_subject = c.db.book_subject ++ e) := by
  rw [saveSubject_eq]
  by_cases hf : stmtFails f c = true
  · rw [if_pos hf]
    exact ⟨rfl, rfl, rfl, ⟨[], by simp [Conn.bump]⟩, ⟨[], by simp [Conn.bump]⟩⟩
  · rw [if_neg hf]
    cases hsel : selectSubjectIdByName c.db s with
    | some sId =>
      obtain ⟨h1, h2, h3, h4, h5⟩ := linkBookSubject_frame f bId sId c.bump
      refine ⟨h1, h2, h4, ⟨[], ?_⟩, h5⟩
      rw [List.append_nil, h3, Conn_bump_db]
    | none =>
      by_cases hf2 : stmtFails f c.bump = true
      · rw [if_pos hf2]
        exact ⟨rfl, rfl, rfl, ⟨[], by simp [Conn.bump]⟩, ⟨[], by simp [Conn.bump]⟩⟩
      · rw [if_neg hf2]
        cases hins : insertSubjectOnConflict c.db s with
        | mk rid db2 =>
          have hdb2 : db2.book = c.db.book ∧ db2.author = c.db.author ∧
              db2.book_author = c.db.book_author ∧
              db2.book_subject = c.db.book_subject ∧
              ∃ e, db2.subject = c.db.subject ++ e := by
            unfold insertSubjectOnConflict at hins
            by_cases hany : c.db.subject.any (fun r => r.sub_name == s) = true
            · rw [if_pos hany] at hins
              cases hins
              exact ⟨rfl, rfl, rfl, rfl, ⟨[], by simp⟩⟩
            · rw [if_neg hany] at hins
              cases hins
              exact ⟨rfl, rfl, rfl, rfl, ⟨[⟨c.db.nextSubjectId, s⟩], rfl⟩⟩
          obtain ⟨hb2, ha2, hba2, hbs2, e1, he1⟩ := hdb2
          obtain ⟨h1, h2, h3, h4, h5⟩ := linkBookSubject_frame f bId
            (rid.getD c.lastRowId) ⟨db2, rid.getD c.lastRowId, c.stmtIdx + 2⟩
          refine ⟨?_, ?_, ?_, ?_, ?_⟩
          · rw [h1]; exact hb2
          · rw [h2]; exact ha2
          · rw [h4]; exact hba2
          · exact ⟨e1, by rw [h3]; exact he1⟩
          · obtain ⟨e2, he2⟩ := h5
            exact ⟨e2, by rw [he2]; rw [show (⟨db2, rid.getD c.lastRowId,
              c.stmtIdx + 2⟩ : Conn).db.book_subject = db2.book_subject from rfl, hbs2]⟩

/-- The author loop leaves book, subject and `book_subject` untouched, and
only appends to `author` and `book_author` — on every path. -/
theorem saveAuthors_frame (f : Option Nat) (bId : Nat) (as : List Author) :
    ∀ c : Conn,
      ((saveAuthors f bId as c).2).db.book = c.db.book ∧
      ((saveAuthors f bId as c).2).db.subject = c.db.subject ∧
      ((saveAuthors f bId as c).2).db.book_subject = c.db.book_subject ∧
      (∃ e, ((saveAuthors f bId as c).2).db.author = c.db.author ++ e) ∧
      (∃ e, ((saveAuthors f bId as c).2).db.book_author = c.db.book_author ++ e) := by
  induction as with
  | nil =>
    intro c
    exact ⟨rfl, rfl, rfl, ⟨[], by simp [saveAuthors]⟩, ⟨[], by simp [saveAuthors]⟩⟩
  | cons a as ih =>
    intro c
    simp only [saveAuthors]
    have hfr := saveAuthor_frame f bId a c
    split
    · next c1 heq =>
      rw [heq] at hfr
      obtain ⟨hb, hs, hbs, ⟨e1, he1⟩, ⟨e2, he2⟩⟩ := hfr
      obtain ⟨hb2, hs2, hbs2, ⟨e3, he3⟩, ⟨e4, he4⟩⟩ := ih c1
      refine ⟨by rw [hb2, hb], by rw [hs2, hs], by rw [hbs2, hbs], ?_, ?_⟩
      · exact ⟨e1 ++ e3, by rw [he3, he1, List.append_assoc]⟩
      · exact ⟨e2 ++ e4, by rw [he4, he2, List.append_assoc]⟩
    · next e c1 heq =>
      rw [heq] at hfr
      exact hfr

/-- The subject loop leaves book, author and `book_author` untouched, and
only appends to `subject` and `book_subject` — on every path. -/
theorem saveSubjects_frame (f : Option Nat) (bId : Nat) (ss : List String) :
    ∀ c : Conn,
      ((saveSubjects f bId ss c).2).db.book = c.db.book ∧
      ((saveSubjects f bId ss c).2).db.author = c.db.author ∧
      ((saveSubjects f bId ss c).2).db.book_author = c.db.book_author ∧
      (∃ e, ((saveSubjects f bId ss c).2).db.subject = c.db.subject ++ e) ∧
      (∃ e, ((saveSubjects f bId ss c).2).db.book_subject = c.db.book_subject ++ e) := by
  induction ss with
  | nil =>
    intro c
    exact ⟨rfl, rfl, rfl, ⟨[], by simp [saveSubjects]⟩, ⟨[], by simp [saveSubjects]⟩⟩
  | cons s ss ih =>
    intro c
    simp only [saveSubjects]
    have hfr := saveSubject_frame f bId s c
    split
    · next c1 heq =>
      rw [heq] at hfr
      obtain ⟨hb, ha, hba, ⟨e1, he1⟩, ⟨e2, he2⟩⟩ := hfr
      obtain ⟨hb2, ha2, hba2, ⟨e3, he3⟩, ⟨e4, he4⟩⟩ := ih c1
      refine ⟨by rw [hb2, hb], by rw [ha2, ha], by rw [hba2, hba], ?_, ?_⟩
      · exact ⟨e1 ++ e3, by rw [he3, he1, List.append_assoc]⟩
      · exact ⟨e2 ++ e4, by rw [he4, he2, List.append_assoc]⟩
    · next e c1 heq =>
      rw [heq] at hfr
      exact hfr

/-- The author/subject phase of `save` leaves the book table untouched and
only appends to the other four tables — on every path. -/
theorem savePhase2_frame (f : Option Nat) (b : Book) (bId : Nat) (c : Conn) :
    ((savePhase2 f b bId c).2).book = c.db.book ∧
    (∃ e, ((savePhase2 f b bId c).2).author = c.db.author ++ e) ∧
    (∃ e, ((savePhase2 f b bId c).2).book_author = c.db.book_author ++ e) ∧
    (∃ e, ((savePhase2 f b bId c).2).subject = c.db.subject ++ e) ∧
    (∃ e, ((savePhase2 f b bId c).2).book_subject = c.db.book_subject ++ e) := by
  unfold savePhase2
  split
  · next e c2 heq =>
    have hfr := saveAuthors_frame f bId b.authors c
    rw [heq] at hfr
    obtain ⟨hb, hs, hbs, he1, he2⟩ := hfr
    exact ⟨hb, he1, he2, ⟨[], by rw [List.append_nil]; exact hs⟩, ⟨[], by rw [List.append_nil]; exact hbs⟩⟩
  · next c2 heq =>
    have hfr := saveAuthors_frame f bId b.authors c
    rw [heq] at hfr
    obtain ⟨hb, hs, hbs, ⟨e1, he1⟩, ⟨e2, he2⟩⟩ := hfr
    split
    · next e3 c3 heq2 =>
      have hfr2 := saveSubjects_frame f bId b.subjects c2
      rw [heq2] at hfr2
      obtain ⟨hb2, ha2, hba2, ⟨e5, he5⟩, ⟨e6, he6⟩⟩ := hfr2
      exact ⟨by rw [hb2, hb], ⟨e1, by rw [ha2, he1]⟩, ⟨e2, by rw [hba2, he2]⟩,
        ⟨e5, by rw [he5, hs]⟩, ⟨e6, by rw [he6, hbs]⟩⟩
    · next c3 heq2 =>
      have hfr2 := saveSubjects_frame f bId b.subjects c2
      rw [heq2] at hfr2
      obtain ⟨hb2, ha2, hba2, ⟨e5, he5⟩, ⟨e6, he6⟩⟩ := hfr2
      exact ⟨by rw [hb2, hb], ⟨e1, by rw [ha2, he1]⟩, ⟨e2, by rw [hba2, he2]⟩,
        ⟨e5, by rw [he5, hs]⟩, ⟨e6, by rw [he6, hbs]⟩⟩

/-! ## C4 — url-conflict policy -/

/-- In a well-formed store no book row has id 0. -/
theorem book_any_zero_false {db : DB} (hwf : db.WF) :
    db.book.any (fun r => r.id == 0) = false := by
  rw [List.any_eq_false]
  intro r hr
  simp only [beq_iff_eq]
  intro h0
  have := (hwf.bookIds r hr).1
  omega

/-- In a well-formed store no `book_author` pair has book id 0. -/
theorem ba_zero_pair_false {db : DB} (hwf : db.WF) (aId : Nat) :
    db.book_author.any (fun p => p == (0, aId)) = false := by
  rw [List.any_eq_false]
  intro p hp
  simp only [beq_iff_eq]
  intro hpe
  subst hpe
  obtain ⟨⟨r, hr, hid⟩, _⟩ := hwf.baFk (0, aId) hp
  have h1 := (hwf.bookIds r hr).1
  simp at hid
  omega

/-- In a well-formed store no `book_subject` pair has book id 0. -/
theorem bs_zero_pair_false {db : DB} (hwf : db.WF) (sId : Nat) :
    db.book_subject.any (fun p => p == (0, sId)) = false := by
  rw [List.any_eq_false]
  intro p hp
  simp only [beq_iff_eq]
  intro hpe
  subst hpe
  obtain ⟨⟨r, hr, hid⟩, _⟩ := hwf.bsFk (0, sId) hp
  have h1 := (hwf.bookIds r hr).1
  simp at hid
  omega

/-- Linking to book id 0 in a well-formed store fails the foreign-key
check. -/
theorem linkBookAuthor_zero_fail (aId : Nat) (c : Conn) (hwf : c.db.WF) :
    linkBookAuthor none 0 aId c = (Except.error StoreError.fkViolation, c.bump) := by
  rw [linkBookAuthor_none]
  unfold insertBookAuthorOnConflict
  rw [ba_zero_pair_false hwf aId, if_neg Bool.false_ne_true,
    book_any_zero_false hwf]
  rw [if_neg (by simp)]

/-- Linking a subject to book id 0 in a well-formed store fails the
foreign-key check. -/
theorem linkBookSubject_zero_fail (sId : Nat) (c : Conn) (hwf : c.db.WF) :
    linkBookSubject none 0 sId c = (Except.error StoreError.fkViolation, c.bump) := by
  rw [linkBookSubject_none]
  unfold insertBookSubjectOnConflict
  rw [bs_zero_pair_false hwf sId, if_neg Bool.false_ne_true,
    book_any_zero_false hwf]
  rw [if_neg (by simp)]

/-- `saveAuthor` (fault-free) when the url lookup hits. -/
theorem saveAuthor_found (bId : Nat) (a : Author) (c : Conn) (aId : Nat)
    (hsel : selectAuthorIdByUrl c.db a.url = some aId) :
    saveAuthor none bId a c = linkBookAuthor none bId aId c.bump := by
  rw [saveAuthor_none, hsel]

/-- `saveAuthor` (fault-free) when the url lookup misses. -/
theorem saveAuthor_miss (bId : Nat) (a : Author) (c : Conn)
    (hsel : selectAuthorIdByUrl c.db a.url = none) :
    saveAuthor none bId a c =
      linkBookAuthor none bId ((insertAuthorOnConflictUrl c.db a).1.getD c.lastRowId)
        ⟨(insertAuthorOnConflictUrl c.db a).2,
         (insertAuthorOnConflictUrl c.db a).1.getD c.lastRowId,
         c.stmtIdx + 2⟩ := by
  rw [saveAuthor_none, hsel]

/-- `saveSubject` (fault-free) when the name lookup hits. -/
theorem saveSubject_found (bId : Nat) (s : String) (c : Conn) (sId : Nat)
    (hsel : selectSubjectIdByName c.db s = some sId) :
    saveSubject none bId s c = linkBookSubject none bId sId c.bump := by
  rw [saveSubject_none, hsel]

/-- `saveSubject` (fault-free) when the name lookup misses. -/
theorem saveSubject_miss (bId : Nat) (s : String) (c : Conn)
    (hsel : selectSubjectIdByName c.db s = none) :
    saveSubject none bId s c =
      linkBookSubject none bId ((insertSubjectOnConflict c.db s).1.getD c.lastRowId)
        ⟨(insertSubjectOnConflict c.db s).2,
         (insertSubjectOnConflict c.db s).1.getD c.lastRowId,
         c.stmtIdx + 2⟩ := by
  rw [saveSubject_none, hsel]

/-- An author-loop iteration under book id 0 fails with a foreign-key
violation (in a well-formed store). -/
theorem saveAuthor_zero_fail (a : Author) (c : Conn) (hwf : c.db.WF) :
    (saveAuthor none 0 a c).1 = Except.error StoreError.fkViolation := by
  cases hsel : selectAuthorIdByUrl c.db a.url with
  | some aId =>
    rw [saveAuthor_found 0 a c aId hsel,
      linkBookAuthor_zero_fail aId c.bump hwf]
  | none =>
    have hwf2 := @insertAuthor_wf c.db a hwf
    rw [insertAuthor_of_select_none c.db a hsel] at hwf2
    rw [saveAuthor_miss 0 a c hsel, insertAuthor_of_select_none c.db a hsel]
    simp only [Option.getD_some]
    rw [linkBookAuthor_zero_fail c.db.nextAuthorId
      ⟨{ c.db with author := c.db.author ++ [⟨c.db.nextAuthorId, a.url, a.name⟩],
                   nextAuthorId := c.db.nextAuthorId + 1 },
       c.db.nextAuthorId, c.stmtIdx + 2⟩ hwf2]

/-- A subject-loop iteration under book id 0 fails with a foreign-key
violation (in a well-formed store). -/
theorem saveSubject_zero_fail (s : String) (c : Conn) (hwf : c.db.WF) :
    (saveSubject none 0 s c).1 = Except.error StoreError.fkViolation := by
  cases hsel : selectSubjectIdByName c.db s with
  | some sId =>
    rw [saveSubject_found 0 s c sId hsel,
      linkBookSubject_zero_fail sId c.bump hwf]
  | none =>
    have hwf2 := @insertSubject_wf c.db s hwf
    rw [insertSubject_of_select_none c.db s hsel] at hwf2
    rw [saveSubject_miss 0 s c hsel, insertSubject_of_select_none c.db s hsel]
    simp only [Option.getD_some]
    rw [linkBookSubject_zero_fail c.db.nextSubjectId
      ⟨{ c.db with subject := c.db.subject ++ [⟨c.db.nextSubjectId, s⟩],
                   nextSubjectId := c.db.nextSubjectId + 1 },
       c.db.nextSubjectId, c.stmtIdx + 2⟩ hwf2]

/-- A non-empty author loop under book id 0 fails. -/
theorem saveAuthors_zero_fail (a : Author) (as : List Author) (c : Conn)
    (hwf : c.db.WF) :
    (saveAuthors none 0 (a :: as) c).1 = Except.error StoreError.fkViolation := by
  have h1 := saveAuthor_zero_fail a c hwf
  simp only [saveAuthors]
  cases hit : saveAuthor none 0 a c with
  | mk res c1 =>
    rw [hit] at h1
    simp at h1
    subst h1
    rfl

/-- A non-empty subject loop under book id 0 fails. -/
theorem saveSubjects_zero_fail (s : String) (ss : List String) (c : Conn)
    (hwf : c.db.WF) :
    (saveSubjects none 0 (s :: ss) c).1 = Except.error StoreError.fkViolation := by
  have h1 := saveSubject_zero_fail s c hwf
  simp only [saveSubjects]
  cases hit : saveSubject none 0 s c with
  | mk res c1 =>
    rw [hit] at h1
    simp at h1
    subst h1
    rfl

/-- The book INSERT on a url conflict is a no-op returning no rowid. -/
theorem insertBook_url_conflict (db : DB) (b : Book)
    (hurl : db.book.any (fun r => r.url == b.url) = true) :
    insertBookOnConflictUrl db b = .ok (none, db) := by
  unfold insertBookOnConflictUrl
  rw [if_pos hurl]

/-- The author/subject phase under book id 0 fails when the book carries any
author (well-formed store). -/
theorem savePhase2_zero_authors (b : Book) (c : Conn) (hwf : c.db.WF)
    (a : Author) (as : List Author) (hA : b.authors = a :: as) :
    (savePhase2 none b 0 c).1 = Except.error StoreError.fkViolation := by
  unfold savePhase2
  rw [hA]
  have h1 := saveAuthors_zero_fail a as c hwf
  cases hit : saveAuthors none 0 (a :: as) c with
  | mk res c1 =>
    rw [hit] at h1
    simp at h1
    subst h1
    rfl

/-- The author/subject phase under book id 0 fails when the book carries no
author but some subject (well-formed store). -/
theorem savePhase2_zero_subjects (b : Book) (c : Conn) (hwf : c.db.WF)
    (hA : b.authors = []) (s : String) (ss : List String)
    (hS : b.subjects = s :: ss) :
    (savePhase2 none b 0 c).1 = Except.error StoreError.fkViolation := by
  unfold savePhase2
  rw [hA, hS]
  simp only [saveAuthors]
  have h1 := saveSubjects_zero_fail s ss c hwf
  cases hit : saveSubjects none 0 (s :: ss) c with
  | mk res c1 =>
    rw [hit] at h1
    simp at h1
    subst h1
    rfl

/-- C4 (counterexample): the claim's conflict policy does not happen.  On
the url conflict between `exB2` and the saved `exB1`, no follow-up lookup by
url occurs: `b_id` is the connection's stale last-insert rowid (0), so the
author-link insert raises a foreign-key violation instead of linking to the
existing url-bound row, and `save` fails; `book_author` gains no row at
all. -/
theorem claim_C4_counterexample :
    (exB2.save exDb1).1 = Except.error StoreError.fkViolation ∧
      (exB2.save exDb1).2.book = exDb1.book ∧
      (exB2.save exDb1).2.book_author = exDb1.book_author :=
  ⟨rfl, by decide, by decide⟩

/-- C4 (amended): saving a book whose `url` collides with an existing row
while its `isbn` is absent creates no second book row and leaves the
isbn-to-row mapping of the store unchanged — but the book identity used for
the links is not resolved by a follow-up lookup by url: it is the fresh
connection's last-insert rowid, 0, which references no row.  Hence a save
with any authors (or, with no authors, any subjects) fails with a
foreign-key violation at the first link insert, and only an author- and
subject-free book saves without error, changing nothing. -/
theorem claim_C4_amended (db : DB) (b : Book) (hwf : db.WF)
    (hurl : db.book.any (fun r => r.url == b.url) = true)
    (hisbn : selectBookIdByIsbn db b.isbn = none) :
    ((saveF none b db).2.book = db.book) ∧
    (∀ i, selectBookIdByIsbn (saveF none b db).2 i = selectBookIdByIsbn db i) ∧
    (b.authors = [] → b.subjects = [] → saveF none b db = (Except.ok (), db)) ∧
    (∀ a as, b.authors = a :: as →
      (saveF none b db).1 = Except.error StoreError.fkViolation) ∧
    (∀ s ss, b.authors = [] → b.subjects = s :: ss →
      (saveF none b db).1 = Except.error StoreError.fkViolation) := by
  have hsave : saveF none b db = savePhase2 none b 0 ⟨db, 0, 2⟩ := by
    rw [saveF_none_eq, hisbn, insertBook_url_conflict db b hurl]
    rfl
  refine ⟨?_, ?_, ?_, ?_, ?_⟩
  · rw [hsave]
    exact (savePhase2_frame none b 0 ⟨db, 0, 2⟩).1
  · intro i
    have hb := (savePhase2_frame none b 0 ⟨db, 0, 2⟩).1
    rw [hsave]
    unfold selectBookIdByIsbn
    rw [hb]
  · intro hA hS
    rw [hsave]
    unfold savePhase2
    rw [hA, hS]
    rfl
  · intro a as hA
    rw [hsave]
    exact savePhase2_zero_authors b ⟨db, 0, 2⟩ hwf a as hA
  · intro s ss hA hS
    rw [hsave]
    exact savePhase2_zero_subjects b ⟨db, 0, 2⟩ hwf hA s ss hS

/-- C4 (witness): the amended behavior at the concrete conflicting pair. -/
theorem claim_C4_witness :
    (saveF none exB2 exDb1).2.book = exDb1.book ∧
      (saveF none exB2 exDb1).1 = Except.error StoreError.fkViolation :=
  ⟨(claim_C4_amended exDb1 exB2 (by constructor <;> decide) (by decide)
      (by decide)).1,
   (claim_C4_amended exDb1 exB2 (by constructor <;> decide) (by decide)
      (by decide)).2.2.2.1 ⟨"a2", "B"⟩ [] rfl⟩

/-! ## C2 — idempotence machinery -/

/-- After a save, an author of the book is *settled*: its url resolves to a
row and the link to the book exists. -/
def authorSettled (db : DB) (bId : Nat) (a : Author) : Prop :=
  ∃ i, selectAuthorIdByUrl db a.url = some i ∧ (bId, i) ∈ db.book_author

/-- After a save, a subject of the book is *settled*. -/
def subjectSettled (db : DB) (bId : Nat) (s : String) : Prop :=
  ∃ i, selectSubjectIdByName db s = some i ∧ (bId, i) ∈ db.book_subject

/-- Settledness survives appending rows to `author` and `book_author`. -/
theorem authorSettled_extend {db db2 : DB} {bId : Nat} {a : Author}
    (h : authorSettled db bId a)
    (hau : ∃ e, db2.author = db.author ++ e)
    (hba : ∃ e, db2.book_author = db.book_author ++ e) :
    authorSettled db2 bId a := by
  obtain ⟨i, hsel, hmem⟩ := h
  obtain ⟨e1, he1⟩ := hau
  obtain ⟨e2, he2⟩ := hba
  refine ⟨i, ?_, ?_⟩
  · unfold selectAuthorIdByUrl at hsel ⊢
    rw [he1]
    cases hfind : db.author.find? (fun r => r.url == a.url) with
    | none => rw [hfind] at hsel; cases hsel
    | some r =>
      rw [find?_append_of_some hfind]
      rw [hfind] at hsel
      exact hsel
  · rw [he2]
    exact List.mem_append_left _ hmem

/-- Settledness survives appending rows to `subject` and `book_subject`. -/
theorem subjectSettled_extend {db db2 : DB} {bId : Nat} {s : String}
    (h : subjectSettled db bId s)
    (hsu : ∃ e, db2.subject = db.subject ++ e)
    (hbs : ∃ e, db2.book_subject = db.book_subject ++ e) :
    subjectSettled db2 bId s := by
  obtain ⟨i, hsel, hmem⟩ := h
  obtain ⟨e1, he1⟩ := hsu
  obtain ⟨e2, he2⟩ := hbs
  refine ⟨i, ?_, ?_⟩
  · unfold selectSubjectIdByName at hsel ⊢
    rw [he1]
    cases hfind : db.subject.find? (fun r => r.sub_name == s) with
    | none => rw [hfind] at hsel; cases hsel
    | some r =>
      rw [find?_append_of_some hfind]
      rw [hfind] at hsel
      exact hsel
  · rw [he2]
    exact List.mem_append_left _ hmem

/-- Inversion of a successful author link statement. -/
theorem linkBookAuthor_ok_inv {bId aId : Nat} {c c2 : Conn}
    (h : linkBookAuthor none bId aId c = (Except.ok (), c2)) :
    c2.db.author = c.db.author ∧ (bId, aId) ∈ c2.db.book_author ∧
      (∃ e, c2.db.book_author = c.db.book_author ++ e) := by
  rw [linkBookAuthor_none] at h
  unfold insertBookAuthorOnConflict at h
  by_cases hdup : c.db.book_author.any (fun p => p == (bId, aId)) = true
  · rw [if_pos hdup] at h
    simp only [Prod.mk.injEq] at h
    obtain ⟨-, rfl⟩ := h
    rw [List.any_eq_true] at hdup
    obtain ⟨p, hp, hpe⟩ := hdup
    simp at hpe
    subst hpe
    exact ⟨rfl, hp, ⟨[], by simp⟩⟩
  · rw [if_neg hdup] at h
    by_cases hfk : (c.db.book.any (fun r => r.id == bId) &&
        c.db.author.any (fun r => r.id == aId)) = true
    · rw [if_pos hfk] at h
      simp only [Prod.mk.injEq] at h
      obtain ⟨-, rfl⟩ := h
      exact ⟨rfl, by simp, ⟨[(bId, aId)], rfl⟩⟩
    · rw [if_neg hfk] at h
      simp at h
 
/-- Inversion of a successful subject link statement. -/
theorem linkBookSubject_ok_inv {bId sId : Nat} {c c2 : Conn}
    (h : linkBookSubject none bId sId c = (Except.ok (), c2)) :
    c2.db.subject = c.db.subject ∧ (bId, sId) ∈ c2.db.book_subject ∧
      (∃ e, c2.db.book_subject = c.db.book_subject ++ e) := by
  rw [linkBookSubject_none] at h
  unfold insertBookSubjectOnConflict at h
  by_cases hdup : c.db.book_subject.any (fun p => p == (bId, sId)) = true
  · rw [if_pos hdup] at h
    simp only [Prod.mk.injEq] at h
    obtain ⟨-, rfl⟩ := h
    rw [List.any_eq_true] at hdup
    obtain ⟨p, hp, hpe⟩ := hdup
    simp at hpe
    subst hpe
    exact ⟨rfl, hp, ⟨[], by simp⟩⟩
  · rw [if_neg hdup] at h
    by_cases hfk : (c.db.book.any (fun r => r.id == bId) &&
        c.db.subject.any (fun r => r.id == sId)) = true
    · rw [if_pos hfk] at h
      simp only [Prod.mk.injEq] at h
      obtain ⟨-, rfl⟩ := h
      exact ⟨rfl, by simp, ⟨[(bId, sId)], rfl⟩⟩
    · rw [if_neg hfk] at h
      simp at h

/-- A successful author-loop iteration settles its author. -/
theorem saveAuthor_settles (bId : Nat) (a : Author) (c c2 : Conn)
    (h : saveAuthor none bId a c = (Except.ok (), c2)) :
    authorSettled c2.db bId a := by
  cases hsel : selectAuthorIdByUrl c.db a.url with
  | some aId =>
    rw [saveAuthor_found bId a c aId hsel] at h
    obtain ⟨hau, hmem, _⟩ := linkBookAuthor_ok_inv h
    refine ⟨aId, ?_, hmem⟩
    unfold selectAuthorIdByUrl at hsel ⊢
    rw [show c2.db.author = c.db.author from hau]
    exact hsel
  | none =>
    rw [saveAuthor_miss bId a c hsel,
      insertAuthor_of_select_none c.db a hsel] at h
    simp only [Option.getD_some] at h
    obtain ⟨hau, hmem, _⟩ := linkBookAuthor_ok_inv h
    refine ⟨c.db.nextAuthorId, ?_, hmem⟩
    unfold selectAuthorIdByUrl at hsel ⊢
    rw [hau]
    have hfind : c.db.author.find? (fun r => r.url == a.url) = none := by
      cases hf : c.db.author.find? (fun r => r.url == a.url) with
      | none => rfl
      | some r => rw [hf] at hsel; cases hsel
    show ((({ c.db with
        author := c.db.author ++ [⟨c.db.nextAuthorId, a.url, a.name⟩],
        nextAuthorId := c.db.nextAuthorId + 1 } : DB)).author.find?
          (fun r => r.url == a.url)).map (fun r => r.id) = some c.db.nextAuthorId
    rw [show ({ c.db with
        author := c.db.author ++ [⟨c.db.nextAuthorId, a.url, a.name⟩],
        nextAuthorId := c.db.nextAuthorId + 1 } : DB).author =
      c.db.author ++ [⟨c.db.nextAuthorId, a.url, a.name⟩] from rfl]
    rw [find?_append_of_none hfind]
    simp

/-- A successful subject-loop iteration settles its subject. -/
theorem saveSubject_settles (bId : Nat) (s : String) (c c2 : Conn)
    (h : saveSubject none bId s c = (Except.ok (), c2)) :
    subjectSettled c2.db bId s := by
  cases hsel : selectSubjectIdByName c.db s with
  | some sId =>
    rw [saveSubject_found bId s c sId hsel] at h
    obtain ⟨hsu, hmem, _⟩ := linkBookSubject_ok_inv h
    refine ⟨sId, ?_, hmem⟩
    unfold selectSubjectIdByName at hsel ⊢
    rw [show c2.db.subject = c.db.subject from hsu]
    exact hsel
  | none =>
    rw [saveSubject_miss bId s c hsel,
      insertSubject_of_select_none c.db s hsel] at h
    simp only [Option.getD_some] at h
    obtain ⟨hsu, hmem, _⟩ := linkBookSubject_ok_inv h
    refine ⟨c.db.nextSubjectId, ?_, hmem⟩
    unfold selectSubjectIdByName at hsel ⊢
    rw [hsu]
    have hfind : c.db.subject.find? (fun r => r.sub_name == s) = none := by
      cases hf : c.db.subject.find? (fun r => r.sub_name == s) with
      | none => rfl
      | some r => rw [hf] at hsel; cases hsel
    show ((({ c.db with
        subject := c.db.subject ++ [⟨c.db.nextSubjectId, s⟩],
        nextSubjectId := c.db.nextSubjectId + 1 } : DB)).subject.find?
          (fun r => r.sub_name == s)).map (fun r => r.id) = some c.db.nextSubjectId
    rw [show ({ c.db with
        subject := c.db.subject ++ [⟨c.db.nextSubjectId, s⟩],
        nextSubjectId := c.db.nextSubjectId + 1 } : DB).subject =
      c.db.subject ++ [⟨c.db.nextSubjectId, s⟩] from rfl]
    rw [find?_append_of_none hfind]
    simp

/-- A successful author loop settles every author of the list. -/
theorem saveAuthors_settle (bId : Nat) (as : List Author) :
    ∀ c c2 : Conn, saveAuthors none bId as c = (Except.ok (), c2) →
      ∀ a ∈ as, authorSettled c2.db bId a := by
  induction as with
  | nil =>
    intro c c2 h a ha
    cases ha
  | cons a as ih =>
    intro c c2 h a2 ha2
    simp only [saveAuthors] at h
    cases hit : saveAuthor none bId a c with
    | mk res c1 =>
      rw [hit] at h
      cases res with
      | error e =>
        have h2 : ((Except.error e, c1) : Except StoreError Unit × Conn) =
            (Except.ok (), c2) := h
        simp at h2
      | ok u =>
        cases u
        have h2 : saveAuthors none bId as c1 = (Except.ok (), c2) := h
        rcases List.mem_cons.mp ha2 with rfl | ha2
        · have hset := saveAuthor_settles bId a2 c c1 hit
          have hfr := saveAuthors_frame none bId as c1
          rw [h2] at hfr
          exact authorSettled_extend hset hfr.2.2.2.1 hfr.2.2.2.2
        · exact ih c1 c2 h2 a2 ha2

/-- A successful subject loop settles every subject of the list. -/
theorem saveSubjects_settle (bId : Nat) (ss : List String) :
    ∀ c c2 : Conn, saveSubjects none bId ss c = (Except.ok (), c2) →
      ∀ s ∈ ss, subjectSettled c2.db bId s := by
  induction ss with
  | nil =>
    intro c c2 h s hs
    cases hs
  | cons s ss ih =>
    intro c c2 h s2 hs2
    simp only [saveSubjects] at h
    cases hit : saveSubject none bId s c with
    | mk res c1 =>
      rw [hit] at h
      cases res with
      | error e =>
        have h2 : ((Except.error e, c1) : Except StoreError Unit × Conn) =
            (Except.ok (), c2) := h
        simp at h2
      | ok u =>
        cases u
        have h2 : saveSubjects none bId ss c1 = (Except.ok (), c2) := h
        rcases List.mem_cons.mp hs2 with rfl | hs2
        · have hset := saveSubject_settles bId s2 c c1 hit
          have hfr := saveSubjects_frame none bId ss c1
          rw [h2] at hfr
          exact subjectSettled_extend hset hfr.2.2.2.1 hfr.2.2.2.2
        · exact ih c1 c2 h2 s2 hs2

/-- A settled author iteration is a pure no-op on the store. -/
theorem saveAuthor_noop (bId : Nat) (a : Author) (c : Conn)
    (h : authorSettled c.db bId a) :
    saveAuthor none bId a c =
      (Except.ok (), { c with stmtIdx := c.stmtIdx + 2 }) := by
  obtain ⟨i, hsel, hmem⟩ := h
  rw [saveAuthor_found bId a c i hsel, linkBookAuthor_none]
  unfold insertBookAuthorOnConflict
  have hdup : (c.bump).db.book_author.any (fun p => p == (bId, i)) = true := by
    rw [List.any_eq_true]
    exact ⟨(bId, i), hmem, by simp⟩
  rw [if_pos hdup]
  rfl

/-- A settled subject iteration is a pure no-op on the store. -/
theorem saveSubject_noop (bId : Nat) (s : String) (c : Conn)
    (h : subjectSettled c.db bId s) :
    saveSubject none bId s c =
      (Except.ok (), { c with stmtIdx := c.stmtIdx + 2 }) := by
  obtain ⟨i, hsel, hmem⟩ := h
  rw [saveSubject_found bId s c i hsel, linkBookSubject_none]
  unfold insertBookSubjectOnConflict
  have hdup : (c.bump).db.book_subject.any (fun p => p == (bId, i)) = true := by
    rw [List.any_eq_true]
    exact ⟨(bId, i), hmem, by simp⟩
  rw [if_pos hdup]
  rfl

/-- A fully-settled author loop is a pure no-op on the store. -/
theorem saveAuthors_noop (bId : Nat) (as : List Author) :
    ∀ c : Conn, (∀ a ∈ as, authorSettled c.db bId a) →
      ∃ c3, saveAuthors none bId as c = (Except.ok (), c3) ∧ c3.db = c.db := by
  induction as with
  | nil =>
    intro c h
    exact ⟨c, rfl, rfl⟩
  | cons a as ih =>
    intro c h
    simp only [saveAuthors]
    rw [saveAuthor_noop bId a c (h a (List.mem_cons_self a as))]
    obtain ⟨c3, h3, hdb3⟩ := ih { c with stmtIdx := c.stmtIdx + 2 }
      (fun a2 ha2 => h a2 (List.mem_cons_of_mem a ha2))
    exact ⟨c3, h3, hdb3⟩

/-- A fully-settled subject loop is a pure no-op on the store. -/
theorem saveSubjects_noop (bId : Nat) (ss : List String) :
    ∀ c : Conn, (∀ s ∈ ss, subjectSettled c.db bId s) →
      ∃ c3, saveSubjects none bId ss c = (Except.ok (), c3) ∧ c3.db = c.db := by
  induction ss with
  | nil =>
    intro c h
    exact ⟨c, rfl, rfl⟩
  | cons s ss ih =>
    intro c h
    simp only [saveSubjects]
    rw [saveSubject_noop bId s c (h s (List.mem_cons_self s ss))]
    obtain ⟨c3, h3, hdb3⟩ := ih { c with stmtIdx := c.stmtIdx + 2 }
      (fun s2 hs2 => h s2 (List.mem_cons_of_mem s hs2))
    exact ⟨c3, h3, hdb3⟩

/-- Inversion of a successful author/subject phase. -/
theorem savePhase2_ok_inv {f : Option Nat} {b : Book} {bId : Nat} {c : Conn}
    {db2 : DB} (h : savePhase2 f b bId c = (Except.ok (), db2)) :
    ∃ c2 c3, saveAuthors f bId b.authors c = (Except.ok (), c2) ∧
      saveSubjects f bId b.subjects c2 = (Except.ok (), c3) ∧ db2 = c3.db := by
  unfold savePhase2 at h
  split at h
  · next e c2 heq =>
    simp at h
  · next c2 heq =>
    split at h
    · next e c3 heq2 =>
      simp at h
    · next c3 heq2 =>
      simp only [Prod.mk.injEq] at h
      exact ⟨c2, c3, heq, heq2, h.2.symm⟩

/-- A fully-settled author/subject phase is a pure no-op on the store. -/
theorem savePhase2_noop (b : Book) (bId : Nat) (c : Conn)
    (ha : ∀ a ∈ b.authors, authorSettled c.db bId a)
    (hs : ∀ s ∈ b.subjects, subjectSettled c.db bId s) :
    savePhase2 none b bId c = (Except.ok (), c.db) := by
  obtain ⟨c2, h2, hdb2⟩ := saveAuthors_noop bId b.authors c ha
  obtain ⟨c3, h3, hdb3⟩ := saveSubjects_noop bId b.subjects c2
    (fun s hs2 => by rw [hdb2]; exact hs s hs2)
  unfold savePhase2
  split
  · next e c2x heq =>
    rw [h2] at heq
    simp only [Prod.mk.injEq] at heq
    cases heq.1
  · next c2x heq =>
    rw [h2] at heq
    simp only [Prod.mk.injEq] at heq
    obtain ⟨-, heqc⟩ := heq
    subst heqc
    split
    · next e c3x heq2 =>
      rw [h3] at heq2
      simp only [Prod.mk.injEq] at heq2
      cases heq2.1
    · next c3x heq2 =>
      rw [h3] at heq2
      simp only [Prod.mk.injEq] at heq2
      obtain ⟨-, heqc2⟩ := heq2
      subst heqc2
      rw [hdb3, hdb2]

/-- Replaying the author/subject phase of a completed save on its own result
store is a no-op: every author and subject is already settled. -/
theorem savePhase2_resave {b : Book} {bId : Nat} {c : Conn} {db2 : DB}
    (h : savePhase2 none b bId c = (Except.ok (), db2)) :
    ∀ c' : Conn, c'.db = db2 → savePhase2 none b bId c' = (Except.ok (), db2) := by
  obtain ⟨c2, c3, hA, hS, hdb⟩ := savePhase2_ok_inv h
  intro c' hc'
  have hAset : ∀ a ∈ b.authors, authorSettled c3.db bId a := by
    intro a ha
    have h1 := saveAuthors_settle bId b.authors c c2 hA a ha
    have hfr := saveSubjects_frame none bId b.subjects c2
    rw [hS] at hfr
    obtain ⟨i, hsel2, hmem⟩ := h1
    refine ⟨i, ?_, ?_⟩
    · unfold selectAuthorIdByUrl at hsel2 ⊢
      rw [hfr.2.1]
      exact hsel2
    · rw [hfr.2.2.1]
      exact hmem
  have hSset : ∀ s ∈ b.subjects, subjectSettled c3.db bId s :=
    fun s hs => saveSubjects_settle bId b.subjects c2 c3 hS s hs
  have hnoop := savePhase2_noop b bId c'
    (fun a ha => by rw [hc', hdb]; exact hAset a ha)
    (fun s hs => by rw [hc', hdb]; exact hSset s hs)
  rw [hnoop, hc']

/-- Inversion of the book INSERT's successful outcomes. -/
theorem insertBook_inv {db : DB} {b : Book} {rid : Option Nat} {dbB : DB}
    (h : insertBookOnConflictUrl db b = .ok (rid, dbB)) :
    (db.book.any (fun r => r.url == b.url) = true ∧ rid = none ∧ dbB = db) ∨
    (rid = some db.nextBookId ∧
      dbB = { db with
        book := db.book ++ [⟨db.nextBookId, b.url, b.isbn, b.title, b.subtitle, b.cover_url⟩],
        nextBookId := db.nextBookId + 1 }) := by
  unfold insertBookOnConflictUrl at h
  by_cases hurl : db.book.any (fun r => r.url == b.url) = true
  · rw [if_pos hurl] at h
    simp only [Except.ok.injEq, Prod.mk.injEq] at h
    exact Or.inl ⟨hurl, h.1.symm, h.2.symm⟩
  · rw [if_neg hurl] at h
    by_cases hisbn : db.book.any (fun r => r.isbn == b.isbn) = true
    · rw [if_pos hisbn] at h
      cases h
    · rw [if_neg hisbn] at h
      simp only [Except.ok.injEq, Prod.mk.injEq] at h
      exact Or.inr ⟨h.1.symm, h.2.symm⟩

/-- `saveF` (fault-free) when the isbn lookup hits. -/
theorem saveF_isbn_found (b : Book) (db : DB) (bId : Nat)
    (hsel : selectBookIdByIsbn db b.isbn = some bId) :
    saveF none b db = savePhase2 none b bId ⟨db, 0, 1⟩ := by
  rw [saveF_none_eq, hsel]

/-- `saveF` (fault-free) when the isbn lookup misses. -/
theorem saveF_isbn_miss (b : Book) (db : DB)
    (hsel : selectBookIdByIsbn db b.isbn = none) :
    saveF none b db =
      match insertBookOnConflictUrl db b with
      | .error e => (.error e, db)
      | .ok (rid, dbB) => savePhase2 none b (rid.getD 0) ⟨dbB, rid.getD 0, 2⟩ := by
  rw [saveF_none_eq, hsel]

/-- A missed isbn select means the underlying search fails. -/
theorem selectBook_none_find {db : DB} {i : String}
    (h : selectBookIdByIsbn db i = none) :
    db.book.find? (fun r => r.isbn == i) = none := by
  unfold selectBookIdByIsbn at h
  cases hf : db.book.find? (fun r => r.isbn == i) with
  | none => rfl
  | some r =>
    rw [hf] at h
    cases h

/-- Equal book tables give equal isbn lookups. -/
theorem selectBook_congr {db1 db2 : DB} (h : db1.book = db2.book) (i : String) :
    selectBookIdByIsbn db1 i = selectBookIdByIsbn db2 i := by
  unfold selectBookIdByIsbn
  rw [h]

/-- C2: idempotence of `save`.  If `save b` completes on a store, running
`save b` again on the resulting store completes and leaves every table — and
hence every row count — exactly as after the first call. -/
theorem claim_C2_idempotent (db db2 : DB) (b : Book)
    (h : b.save db = (Except.ok (), db2)) :
    b.save db2 = (Except.ok (), db2) := by
  unfold Book.save at h ⊢
  cases hsel : selectBookIdByIsbn db b.isbn with
  | some bId =>
    rw [saveF_isbn_found b db bId hsel] at h
    have hbk := (savePhase2_frame none b bId ⟨db, 0, 1⟩).1
    rw [h] at hbk
    have hbk2 : db2.book = db.book := hbk
    have hsel2 : selectBookIdByIsbn db2 b.isbn = some bId := by
      rw [selectBook_congr hbk2 b.isbn]
      exact hsel
    rw [saveF_isbn_found b db2 bId hsel2]
    exact savePhase2_resave h ⟨db2, 0, 1⟩ rfl
  | none =>
    rw [saveF_isbn_miss b db hsel] at h
    cases hins : insertBookOnConflictUrl db b with
    | error e =>
      rw [hins] at h
      have h2 : ((Except.error e, db) : Except StoreError Unit × DB) =
          (Except.ok (), db2) := h
      simp at h2
    | ok v =>
      rcases v with ⟨rid, dbB⟩
      rw [hins] at h
      have h2 : savePhase2 none b (rid.getD 0) ⟨dbB, rid.getD 0, 2⟩ =
          (Except.ok (), db2) := h
      have hbk := (savePhase2_frame none b (rid.getD 0) ⟨dbB, rid.getD 0, 2⟩).1
      rw [h2] at hbk
      have hbk2 : db2.book = dbB.book := hbk
      rcases insertBook_inv hins with ⟨hurl, hrid, hdbB⟩ | ⟨hrid, hdbB⟩
      · subst hrid
        subst hdbB
        have hsel2 : selectBookIdByIsbn db2 b.isbn = none := by
          rw [selectBook_congr hbk2 b.isbn]
          exact hsel
        rw [saveF_isbn_miss b db2 hsel2]
        have hurl2 : db2.book.any (fun r => r.url == b.url) = true := by
          rw [hbk2]
          exact hurl
        rw [insertBook_url_conflict db2 b hurl2]
        exact savePhase2_resave h2 ⟨db2, 0, 2⟩ rfl
      · subst hrid
        subst hdbB
        have hfind := selectBook_none_find hsel
        have hsel2 : selectBookIdByIsbn db2 b.isbn = some db.nextBookId := by
          unfold selectBookIdByIsbn
          rw [hbk2]
          show ((db.book ++
            [({ id := db.nextBookId, url := b.url, isbn := b.isbn,
                title := b.title, subtitle := b.subtitle,
                cover_url := b.cover_url } : BookRow)]).find?
              (fun r : BookRow => r.isbn == b.isbn)).map
                (fun r : BookRow => r.id) =
            some db.nextBookId
          rw [find?_append_of_none hfind]
          simp
        rw [saveF_isbn_found b db2 db.nextBookId hsel2]
        exact savePhase2_resave h2 ⟨db2, 0, 1⟩ rfl

/-- C2 (witness): the idempotence theorem applied at a concrete book. -/
theorem claim_C2_witness :
    exB1.save (exB1.save DB.empty).2 = (Except.ok (), (exB1.save DB.empty).2) :=
  claim_C2_idempotent DB.empty (exB1.save DB.empty).2 exB1 rfl

/-! ## C3 — round-trip machinery -/

/-- The author aggregate `Book.from_db` reads for a book id: the
`book_author` rows for the book, in rowid order, each resolved through the
author table. -/
def authorsView (db : DB) (bId : Nat) : List Author :=
  (db.book_author.filter (fun p => p.1 == bId)).filterMap
    (fun p => (db.author.find? (fun a => a.id == p.2)).map
      (fun a => Author.mk a.url a.name))

/-- The subject aggregate `Book.from_db` reads for a book id. -/
def subjectsView (db : DB) (bId : Nat) : List String :=
  (db.book_subject.filter (fun p => p.1 == bId)).filterMap
    (fun p => (db.subject.find? (fun s => s.id == p.2)).map
      (fun s => s.sub_name))

/-- `Book.from_db` on a hit assembles the row's fields with the two views. -/
theorem from_db_found {db : DB} {isbn : String} {r : BookRow}
    (hfind : db.book.find? (fun x => x.isbn == isbn) = some r) :
    Book.from_db db isbn =
      (.ok ⟨r.url, r.isbn, r.title, r.subtitle,
        authorsView db r.id, subjectsView db r.id, r.cover_url⟩, db) := by
  unfold Book.from_db authorsView subjectsView
  rw [hfind]

/-- Two members of a list with pairwise-distinct keys and equal keys are
equal. -/
theorem mem_key_unique {α : Type} (key : α → Nat) {l : List α}
    (hpw : l.Pairwise (fun x y => key x ≠ key y)) {r1 r2 : α}
    (h1 : r1 ∈ l) (h2 : r2 ∈ l) (he : key r1 = key r2) : r1 = r2 := by
  by_contra hne
  have hsym : Symmetric (fun x y => key x ≠ key y) := by
    intro x y h he2
    exact h he2.symm
  exact hpw.forall hsym h1 h2 hne he

/-- Membership gives a true `any` over the member's key. -/
theorem any_of_mem_key {α : Type} (key : α → Nat) {l : List α} {r : α}
    (h : r ∈ l) : l.any (fun x => key x == key r) = true := by
  rw [List.any_eq_true]
  exact ⟨r, h, by simp⟩

/-- Absence gives a false pair-membership `any`. -/
theorem any_pair_false_of_not_mem {l : List (Nat × Nat)} {p : Nat × Nat}
    (h : p ∉ l) : l.any (fun q => q == p) = false := by
  rw [List.any_eq_false]
  intro q hq
  simp only [beq_iff_eq]
  rintro rfl
  exact h hq

/-- In a well-formed store, no author lookup by the *next* rowid succeeds. -/
theorem find_author_next_none {db : DB} (hwf : db.WF) :
    db.author.find? (fun r => r.id == db.nextAuthorId) = none := by
  rw [List.find?_eq_none]
  intro r hr
  simp only [beq_iff_eq]
  intro he
  have := (hwf.authorIds r hr).2
  omega

/-- In a well-formed store, no subject lookup by the *next* rowid succeeds. -/
theorem find_subject_next_none {db : DB} (hwf : db.WF) :
    db.subject.find? (fun r => r.id == db.nextSubjectId) = none := by
  rw [List.find?_eq_none]
  intro r hr
  simp only [beq_iff_eq]
  intro he
  have := (hwf.subjectIds r hr).2
  omega

/-- In a well-formed store, no link pair references the *next* author
rowid. -/
theorem pair_next_author_not_mem {db : DB} (hwf : db.WF) (bId : Nat) :
    (bId, db.nextAuthorId) ∉ db.book_author := by
  intro hmem
  obtain ⟨-, ⟨r, hr, hid⟩⟩ := hwf.baFk _ hmem
  have := (hwf.authorIds r hr).2
  simp at hid
  omega

/-- In a well-formed store, no link pair references the *next* subject
rowid. -/
theorem pair_next_subject_not_mem {db : DB} (hwf : db.WF) (bId : Nat) :
    (bId, db.nextSubjectId) ∉ db.book_subject := by
  intro hmem
  obtain ⟨-, ⟨r, hr, hid⟩⟩ := hwf.bsFk _ hmem
  have := (hwf.subjectIds r hr).2
  simp at hid
  omega

/-- Appending an author row that no existing link references leaves the
author view unchanged (every existing link still resolves in the prefix). -/
theorem authorsView_author_append {db : DB} (bId : Nat) (row : AuthorRow)
    (hFk : ∀ p ∈ db.book_author, ∃ r ∈ db.author, r.id = p.2) :
    (db.book_author.filter (fun p => p.1 == bId)).filterMap
        (fun p => ((db.author ++ [row]).find? (fun a => a.id == p.2)).map
          (fun a => Author.mk a.url a.name)) = authorsView db bId := by
  unfold authorsView
  apply List.filterMap_congr
  intro p hp
  have hpmem : p ∈ db.book_author := (List.mem_filter.mp hp).1
  obtain ⟨r, hr, hid⟩ := hFk p hpmem
  cases hfind : db.author.find? (fun a => a.id == p.2) with
  | none =>
    rw [List.find?_eq_none] at hfind
    exact absurd (by simp [hid]) (hfind r hr)
  | some x =>
    rw [find?_append_of_some hfind]

/-- Appending a subject row that no existing link references leaves the
subject view unchanged. -/
theorem subjectsView_subject_append {db : DB} (bId : Nat) (row : SubjectRow)
    (hFk : ∀ p ∈ db.book_subject, ∃ r ∈ db.subject, r.id = p.2) :
    (db.book_subject.filter (fun p => p.1 == bId)).filterMap
        (fun p => ((db.subject ++ [row]).find? (fun s => s.id == p.2)).map
          (fun s => s.sub_name)) = subjectsView db bId := by
  unfold subjectsView
  apply List.filterMap_congr
  intro p hp
  have hpmem : p ∈ db.book_subject := (List.mem_filter.mp hp).1
  obtain ⟨r, hr, hid⟩ := hFk p hpmem
  cases hfind : db.subject.find? (fun s => s.id == p.2) with
  | none =>
    rw [List.find?_eq_none] at hfind
    exact absurd (by simp [hid]) (hfind r hr)
  | some x =>
    rw [find?_append_of_some hfind]

/-- The author link statement when the pair is new and both rows exist:
a genuine insert. -/
theorem linkBookAuthor_insert (bId aId : Nat) (c : Conn)
    (hnot : (bId, aId) ∉ c.db.book_author)
    (hb : c.db.book.any (fun r => r.id == bId) = true)
    (ha : c.db.author.any (fun r => r.id == aId) = true) :
    linkBookAuthor none bId aId c =
      (Except.ok (), ⟨{ c.db with
          book_author := c.db.book_author ++ [(bId, aId)],
          nextBookAuthorRowid := c.db.nextBookAuthorRowid + 1 },
        c.db.nextBookAuthorRowid, c.stmtIdx + 1⟩) := by
  rw [linkBookAuthor_none]
  unfold insertBookAuthorOnConflict
  rw [any_pair_false_of_not_mem hnot, if_neg Bool.false_ne_true,
    if_pos (by simp [hb, ha])]
  rfl

/-- The subject link statement when the pair is new and both rows exist. -/
theorem linkBookSubject_insert (bId sId : Nat) (c : Conn)
    (hnot : (bId, sId) ∉ c.db.book_subject)
    (hb : c.db.book.any (fun r => r.id == bId) = true)
    (hs : c.db.subject.any (fun r => r.id == sId) = true) :
    linkBookSubject none bId sId c =
      (Except.ok (), ⟨{ c.db with
          book_subject := c.db.book_subject ++ [(bId, sId)],
          nextBookSubjectRowid := c.db.nextBookSubjectRowid + 1 },
        c.db.nextBookSubjectRowid, c.stmtIdx + 1⟩) := by
  rw [linkBookSubject_none]
  unfold insertBookSubjectOnConflict
  rw [any_pair_false_of_not_mem hnot, if_neg Bool.false_ne_true,
    if_pos (by simp [hb, hs])]
  rfl

/-- Round trip of the author loop: from a well-formed store in which the
book row exists, the book-to-be-saved's authors have pairwise-distinct urls,
every url already stored carries the same display name, and no existing link
of this book resolves to one of these urls — the loop completes, keeps the
store well-formed, leaves book/subject/book_subject untouched, and extends
this book's author view by exactly the processed list, in order. -/
theorem saveAuthors_view (bId : Nat) (as : List Author) :
    ∀ c : Conn, c.db.WF →
      c.db.book.any (fun r => r.id == bId) = true →
      as.Pairwise (fun a1 a2 => a1.url ≠ a2.url) →
      (∀ a ∈ as, ∀ r ∈ c.db.author, r.url = a.url → r.name = a.name) →
      (∀ a ∈ as, ∀ p ∈ c.db.book_author, p.1 = bId →
        ∀ r ∈ c.db.author, r.id = p.2 → r.url ≠ a.url) →
      ∃ c2, saveAuthors none bId as c = (Except.ok (), c2) ∧
        c2.db.WF ∧
        authorsView c2.db bId = authorsView c.db bId ++ as ∧
        c2.db.book = c.db.book ∧
        c2.db.subject = c.db.subject ∧
        c2.db.book_subject = c.db.book_subject := by
  induction as with
  | nil =>
    intro c hwf hb _ _ _
    exact ⟨c, rfl, hwf, by simp, rfl, rfl, rfl⟩
  | cons a as ih =>
    intro c hwf hb hnd hcompat hfresh
    have hndh := (List.pairwise_cons.mp hnd).1
    have hndt := (List.pairwise_cons.mp hnd).2
    have hpwid : c.db.author.Pairwise (fun x y => x.id ≠ y.id) :=
      hwf.authorPw.imp (fun h => h.1)
    cases hsel : selectAuthorIdByUrl c.db a.url with
    | some aId =>
      obtain ⟨rA, hfound, hrid⟩ : ∃ rA,
          c.db.author.find? (fun r => r.url == a.url) = some rA ∧ rA.id = aId := by
        unfold selectAuthorIdByUrl at hsel
        cases hf : c.db.author.find? (fun r => r.url == a.url) with
        | none => rw [hf] at hsel; cases hsel
        | some r =>
          rw [hf] at hsel
          simp at hsel
          exact ⟨r, rfl, hsel⟩
      have hrmem : rA ∈ c.db.author := List.mem_of_find?_eq_some hfound
      have hrurl : rA.url = a.url := by simpa using List.find?_some hfound
      have hrname : rA.name = a.name :=
        hcompat a (List.mem_cons_self a as) rA hrmem hrurl
      have hnot : (bId, aId) ∉ c.db.book_author := by
        intro hmem
        exact hfresh a (List.mem_cons_self a as) (bId, aId) hmem rfl rA hrmem
          (by rw [hrid]) hrurl
      have ha2 : c.db.author.any (fun r => r.id == aId) = true := by
        rw [List.any_eq_true]
        exact ⟨rA, hrmem, by simp [hrid]⟩
      have hstep := saveAuthor_found bId a c aId hsel
      rw [linkBookAuthor_insert bId aId c.bump hnot hb ha2] at hstep
      have hins : insertBookAuthorOnConflict c.db bId aId =
          .ok (some c.db.nextBookAuthorRowid, { c.db with
            book_author := c.db.book_author ++ [(bId, aId)],
            nextBookAuthorRowid := c.db.nextBookAuthorRowid + 1 }) := by
        unfold insertBookAuthorOnConflict
        rw [any_pair_false_of_not_mem hnot, if_neg Bool.false_ne_true,
          if_pos (by simp [hb, ha2])]
      have hwf1 := insertBookAuthor_wf hwf hins
      have hres : c.db.author.find? (fun x => x.id == aId) = some rA := by
        have h0 : c.db.author.find? (fun x => x.id == rA.id) = some rA :=
          find?_of_pairwise_key (fun x => x.id) hpwid hrmem
        rw [hrid] at h0
        exact h0
      have hview1 : authorsView { c.db with
          book_author := c.db.book_author ++ [(bId, aId)],
          nextBookAuthorRowid := c.db.nextBookAuthorRowid + 1 } bId =
          authorsView c.db bId ++ [a] := by
        unfold authorsView
        rw [show ({ c.db with
            book_author := c.db.book_author ++ [(bId, aId)],
            nextBookAuthorRowid := c.db.nextBookAuthorRowid + 1 } : DB).book_author =
          c.db.book_author ++ [(bId, aId)] from rfl]
        rw [List.filter_append, List.filterMap_append]
        congr 1
        simp [hres, hrurl, hrname]
      have hfresh1 : ∀ a2 ∈ as, ∀ p ∈ ({ c.db with
            book_author := c.db.book_author ++ [(bId, aId)],
            nextBookAuthorRowid := c.db.nextBookAuthorRowid + 1 } : DB).book_author,
          p.1 = bId → ∀ r ∈ c.db.author, r.id = p.2 → r.url ≠ a2.url := by
        intro a2 ha2m p hp hfst r hr hid
        rcases List.mem_append.mp hp with hp | hp
        · exact hfresh a2 (List.mem_cons_of_mem a ha2m) p hp hfst r hr hid
        · rw [List.mem_singleton] at hp
          subst hp
          have hreq : r = rA := by
            refine mem_key_unique (fun x => x.id) hpwid hr hrmem ?_
            show r.id = rA.id
            simp at hid
            rw [hid, hrid]
          subst hreq
          rw [hrurl]
          exact hndh a2 ha2m
      obtain ⟨c2, hrest, hwf2, hview2, hbk2, hsu2, hbs2⟩ :=
        ih ⟨{ c.db with
            book_author := c.db.book_author ++ [(bId, aId)],
            nextBookAuthorRowid := c.db.nextBookAuthorRowid + 1 },
          c.db.nextBookAuthorRowid, c.stmtIdx + 2⟩ hwf1 hb hndt
          (fun a2 ha2m r hr hurl => hcompat a2 (List.mem_cons_of_mem a ha2m) r hr hurl)
          hfresh1
      refine ⟨c2, ?_, hwf2, ?_, hbk2, hsu2, hbs2⟩
      · simp only [saveAuthors]
        rw [hstep]
        exact hrest
      · rw [hview2, hview1, List.append_assoc]
        rfl
    | none =>
      have hfound : c.db.author.find? (fun r => r.url == a.url) = none := by
        unfold selectAuthorIdByUrl at hsel
        cases hf : c.db.author.find? (fun r => r.url == a.url) with
        | none => rfl
        | some r => rw [hf] at hsel; cases hsel
      have hstep := saveAuthor_miss bId a c hsel
      rw [insertAuthor_of_select_none c.db a hsel] at hstep
      simp only [Option.getD_some] at hstep
      have hwfA := @insertAuthor_wf c.db a hwf
      rw [insertAuthor_of_select_none c.db a hsel] at hwfA
      have hnot : (bId, c.db.nextAuthorId) ∉ c.db.book_author :=
        pair_next_author_not_mem hwf bId
      have haA : (c.db.author ++ [(⟨c.db.nextAuthorId, a.url, a.name⟩ : AuthorRow)]).any
          (fun r => r.id == c.db.nextAuthorId) = true := by
        rw [List.any_eq_true]
        exact ⟨⟨c.db.nextAuthorId, a.url, a.name⟩, by simp, by simp⟩
      rw [linkBookAuthor_insert bId c.db.nextAuthorId
        ⟨{ c.db with
            author := c.db.author ++ [⟨c.db.nextAuthorId, a.url, a.name⟩],
            nextAuthorId := c.db.nextAuthorId + 1 },
          c.db.nextAuthorId, c.stmtIdx + 2⟩ hnot hb haA] at hstep
      have hins : insertBookAuthorOnConflict ({ c.db with
            author := c.db.author ++ [⟨c.db.nextAuthorId, a.url, a.name⟩],
            nextAuthorId := c.db.nextAuthorId + 1 } : DB) bId c.db.nextAuthorId =
          .ok (some c.db.nextBookAuthorRowid, { c.db with
            author := c.db.author ++ [⟨c.db.nextAuthorId, a.url, a.name⟩],
            nextAuthorId := c.db.nextAuthorId + 1,
            book_author := c.db.book_author ++ [(bId, c.db.nextAuthorId)],
            nextBookAuthorRowid := c.db.nextBookAuthorRowid + 1 }) := by
        unfold insertBookAuthorOnConflict
        rw [any_pair_false_of_not_mem hnot, if_neg Bool.false_ne_true,
          if_pos (by simp [hb, haA])]
      have hwf1 := insertBookAuthor_wf hwfA hins
      have hfind_next : c.db.author.find?
          (fun x => x.id == c.db.nextAuthorId) = none :=
        find_author_next_none hwf
      have hview1 : authorsView ({ c.db with
          author := c.db.author ++ [⟨c.db.nextAuthorId, a.url, a.name⟩],
          nextAuthorId := c.db.nextAuthorId + 1,
          book_author := c.db.book_author ++ [(bId, c.db.nextAuthorId)],
          nextBookAuthorRowid := c.db.nextBookAuthorRowid + 1 } : DB) bId =
          authorsView c.db bId ++ [a] := by
        unfold authorsView
        rw [show ({ c.db with
            author := c.db.author ++ [⟨c.db.nextAuthorId, a.url, a.name⟩],
            nextAuthorId := c.db.nextAuthorId + 1,
            book_author := c.db.book_author ++ [(bId, c.db.nextAuthorId)],
            nextBookAuthorRowid := c.db.nextBookAuthorRowid + 1 } : DB).book_author =
          c.db.book_author ++ [(bId, c.db.nextAuthorId)] from rfl]
        rw [List.filter_append, List.filterMap_append]
        have hleft := @authorsView_author_append c.db bId
          ⟨c.db.nextAuthorId, a.url, a.name⟩
          (fun p hp => (hwf.baFk p hp).2)
        unfold authorsView at hleft
        rw [hleft]
        congr 1
        rw [show (List.filter (fun p => p.1 == bId) [(bId, c.db.nextAuthorId)]) =
          [(bId, c.db.nextAuthorId)] by simp]
        simp [hfind_next]
      have hcompat1 : ∀ a2 ∈ as,
          ∀ r ∈ c.db.author ++ [(⟨c.db.nextAuthorId, a.url, a.name⟩ : AuthorRow)],
          r.url = a2.url → r.name = a2.name := by
        intro a2 ha2m r hr hurl
        rcases List.mem_append.mp hr with hr | hr
        · exact hcompat a2 (List.mem_cons_of_mem a ha2m) r hr hurl
        · rw [List.mem_singleton] at hr
          subst hr
          exact absurd hurl (hndh a2 ha2m)
      have hfresh1 : ∀ a2 ∈ as,
          ∀ p ∈ c.db.book_author ++ [(bId, c.db.nextAuthorId)], p.1 = bId →
          ∀ r ∈ c.db.author ++ [(⟨c.db.nextAuthorId, a.url, a.name⟩ : AuthorRow)],
          r.id = p.2 → r.url ≠ a2.url := by
        intro a2 ha2m p hp hfst r hr hid
        rcases List.mem_append.mp hp with hp | hp
        · rcases List.mem_append.mp hr with hr | hr
          · exact hfresh a2 (List.mem_cons_of_mem a ha2m) p hp hfst r hr hid
          · rw [List.mem_singleton] at hr
            subst hr
            obtain ⟨-, ⟨rOld, hrOld, hidOld⟩⟩ := hwf.baFk p hp
            have hb2 := (hwf.authorIds rOld hrOld).2
            simp at hid
            omega
        · rw [List.mem_singleton] at hp
          subst hp
          rcases List.mem_append.mp hr with hr | hr
          · have hb2 := (hwf.authorIds r hr).2
            simp at hid
            omega
          · rw [List.mem_singleton] at hr
            subst hr
            intro hurl
            exact hndh a2 ha2m hurl
      obtain ⟨c2, hrest, hwf2, hview2, hbk2, hsu2, hbs2⟩ :=
        ih ⟨{ c.db with
            author := c.db.author ++ [⟨c.db.nextAuthorId, a.url, a.name⟩],
            nextAuthorId := c.db.nextAuthorId + 1,
            book_author := c.db.book_author ++ [(bId, c.db.nextAuthorId)],
            nextBookAuthorRowid := c.db.nextBookAuthorRowid + 1 },
          c.db.nextBookAuthorRowid, c.stmtIdx + 3⟩ hwf1 hb hndt hcompat1 hfresh1
      refine ⟨c2, ?_, hwf2, ?_, hbk2, hsu2, hbs2⟩
      · simp only [saveAuthors]
        rw [hstep]
        exact hrest
      · rw [hview2, hview1, List.append_assoc]
        rfl

/-- Round trip of the subject loop, mirroring `saveAuthors_view`. -/
theorem saveSubjects_view (bId : Nat) (ss : List String) :
    ∀ c : Conn, c.db.WF →
      c.db.book.any (fun r => r.id == bId) = true →
      ss.Pairwise (fun s1 s2 => s1 ≠ s2) →
      (∀ s ∈ ss, ∀ p ∈ c.db.book_subject, p.1 = bId →
        ∀ r ∈ c.db.subject, r.id = p.2 → r.sub_name ≠ s) →
      ∃ c2, saveSubjects none bId ss c = (Except.ok (), c2) ∧
        c2.db.WF ∧
        subjectsView c2.db bId = subjectsView c.db bId ++ ss ∧
        c2.db.book = c.db.book ∧
        c2.db.author = c.db.author ∧
        c2.db.book_author = c.db.book_author := by
  induction ss with
  | nil =>
    intro c hwf hb _ _
    exact ⟨c, rfl, hwf, by simp, rfl, rfl, rfl⟩
  | cons s ss ih =>
    intro c hwf hb hnd hfresh
    have hndh := (List.pairwise_cons.mp hnd).1
    have hndt := (List.pairwise_cons.mp hnd).2
    have hpwid : c.db.subject.Pairwise (fun x y => x.id ≠ y.id) :=
      hwf.subjectPw.imp (fun h => h.1)
    cases hsel : selectSubjectIdByName c.db s with
    | some sId =>
      obtain ⟨rS, hfound, hrid⟩ : ∃ rS,
          c.db.subject.find? (fun r => r.sub_name == s) = some rS ∧ rS.id = sId := by
        unfold selectSubjectIdByName at hsel
        cases hf : c.db.subject.find? (fun r => r.sub_name == s) with
        | none => rw [hf] at hsel; cases hsel
        | some r =>
          rw [hf] at hsel
          simp at hsel
          exact ⟨r, rfl, hsel⟩
      have hrmem : rS ∈ c.db.subject := List.mem_of_find?_eq_some hfound
      have hrname : rS.sub_name = s := by simpa using List.find?_some hfound
      have hnot : (bId, sId) ∉ c.db.book_subject := by
        intro hmem
        exact hfresh s (List.mem_cons_self s ss) (bId, sId) hmem rfl rS hrmem
          (by rw [hrid]) hrname
      have hs2 : c.db.subject.any (fun r => r.id == sId) = true := by
        rw [List.any_eq_true]
        exact ⟨rS, hrmem, by simp [hrid]⟩
      have hstep := saveSubject_found bId s c sId hsel
      rw [linkBookSubject_insert bId sId c.bump hnot hb hs2] at hstep
      have hins : insertBookSubjectOnConflict c.db bId sId =
          .ok (some c.db.nextBookSubjectRowid, { c.db with
            book_subject := c.db.book_subject ++ [(bId, sId)],
            nextBookSubjectRowid := c.db.nextBookSubjectRowid + 1 }) := by
        unfold insertBookSubjectOnConflict
        rw [any_pair_false_of_not_mem hnot, if_neg Bool.false_ne_true,
          if_pos (by simp [hb, hs2])]
      have hwf1 := insertBookSubject_wf hwf hins
      have hres : c.db.subject.find? (fun x => x.id == sId) = some rS := by
        have h0 : c.db.subject.find? (fun x => x.id == rS.id) = some rS :=
          find?_of_pairwise_key (fun x => x.id) hpwid hrmem
        rw [hrid] at h0
        exact h0
      have hview1 : subjectsView { c.db with
          book_subject := c.db.book_subject ++ [(bId, sId)],
          nextBookSubjectRowid := c.db.nextBookSubjectRowid + 1 } bId =
          subjectsView c.db bId ++ [s] := by
        unfold subjectsView
        rw [show ({ c.db with
            book_subject := c.db.book_subject ++ [(bId, sId)],
            nextBookSubjectRowid := c.db.nextBookSubjectRowid + 1 } : DB).book_subject =
          c.db.book_subject ++ [(bId, sId)] from rfl]
        rw [List.filter_append, List.filterMap_append]
        congr 1
        simp [hres, hrname]
      have hfresh1 : ∀ s2 ∈ ss, ∀ p ∈ ({ c.db with
            book_subject := c.db.book_subject ++ [(bId, sId)],
            nextBookSubjectRowid := c.db.nextBookSubjectRowid + 1 } : DB).book_subject,
          p.1 = bId → ∀ r ∈ c.db.subject, r.id = p.2 → r.sub_name ≠ s2 := by
        intro s2 hs2m p hp hfst r hr hid
        rcases List.mem_append.mp hp with hp | hp
        · exact hfresh s2 (List.mem_cons_of_mem s hs2m) p hp hfst r hr hid
        · rw [List.mem_singleton] at hp
          subst hp
          have hreq : r = rS := by
            refine mem_key_unique (fun x => x.id) hpwid hr hrmem ?_
            show r.id = rS.id
            simp at hid
            rw [hid, hrid]
          subst hreq
          rw [hrname]
          exact hndh s2 hs2m
      obtain ⟨c2, hrest, hwf2, hview2, hbk2, hau2, hba2⟩ :=
        ih ⟨{ c.db with
            book_subject := c.db.book_subject ++ [(bId, sId)],
            nextBookSubjectRowid := c.db.nextBookSubjectRowid + 1 },
          c.db.nextBookSubjectRowid, c.stmtIdx + 2⟩ hwf1 hb hndt hfresh1
      refine ⟨c2, ?_, hwf2, ?_, hbk2, hau2, hba2⟩
      · simp only [saveSubjects]
        rw [hstep]
        exact hrest
      · rw [hview2, hview1, List.append_assoc]
        rfl
    | none =>
      have hstep := saveSubject_miss bId s c hsel
      rw [insertSubject_of_select_none c.db s hsel] at hstep
      simp only [Option.getD_some] at hstep
      have hwfA := @insertSubject_wf c.db s hwf
      rw [insertSubject_of_select_none c.db s hsel] at hwfA
      have hnot : (bId, c.db.nextSubjectId) ∉ c.db.book_subject :=
        pair_next_subject_not_mem hwf bId
      have hsA : (c.db.subject ++ [(⟨c.db.nextSubjectId, s⟩ : SubjectRow)]).any
          (fun r => r.id == c.db.nextSubjectId) = true := by
        rw [List.any_eq_true]
        exact ⟨⟨c.db.nextSubjectId, s⟩, by simp, by simp⟩
      rw [linkBookSubject_insert bId c.db.nextSubjectId
        ⟨{ c.db with
            subject := c.db.subject ++ [⟨c.db.nextSubjectId, s⟩],
            nextSubjectId := c.db.nextSubjectId + 1 },
          c.db.nextSubjectId, c.stmtIdx + 2⟩ hnot hb hsA] at hstep
      have hins : insertBookSubjectOnConflict ({ c.db with
            subject := c.db.subject ++ [⟨c.db.nextSubjectId, s⟩],
            nextSubjectId := c.db.nextSubjectId + 1 } : DB) bId c.db.nextSubjectId =
          .ok (some c.db.nextBookSubjectRowid, { c.db with
            subject := c.db.subject ++ [⟨c.db.nextSubjectId, s⟩],
            nextSubjectId := c.db.nextSubjectId + 1,
            book_subject := c.db.book_subject ++ [(bId, c.db.nextSubjectId)],
            nextBookSubjectRowid := c.db.nextBookSubjectRowid + 1 }) := by
        unfold insertBookSubjectOnConflict
        rw [any_pair_false_of_not_mem hnot, if_neg Bool.false_ne_true,
          if_pos (by simp [hb, hsA])]
      have hwf1 := insertBookSubject_wf hwfA hins
      have hfind_next : c.db.subject.find?
          (fun x => x.id == c.db.nextSubjectId) = none :=
        find_subject_next_none hwf
      have hview1 : subjectsView ({ c.db with
          subject := c.db.subject ++ [⟨c.db.nextSubjectId, s⟩],
          nextSubjectId := c.db.nextSubjectId + 1,
          book_subject := c.db.book_subject ++ [(bId, c.db.nextSubjectId)],
          nextBookSubjectRowid := c.db.nextBookSubjectRowid + 1 } : DB) bId =
          subjectsView c.db bId ++ [s] := by
        unfold subjectsView
        rw [show ({ c.db with
            subject := c.db.subject ++ [⟨c.db.nextSubjectId, s⟩],
            nextSubjectId := c.db.nextSubjectId + 1,
            book_subject := c.db.book_subject ++ [(bId, c.db.nextSubjectId)],
            nextBookSubjectRowid := c.db.nextBookSubjectRowid + 1 } : DB).book_subject =
          c.db.book_subject ++ [(bId, c.db.nextSubjectId)] from rfl]
        rw [List.filter_append, List.filterMap_append]
        have hleft := @subjectsView_subject_append c.db bId
          ⟨c.db.nextSubjectId, s⟩
          (fun p hp => (hwf.bsFk p hp).2)
        unfold subjectsView at hleft
        rw [hleft]
        congr 1
        rw [show (List.filter (fun p => p.1 == bId) [(bId, c.db.nextSubjectId)]) =
          [(bId, c.db.nextSubjectId)] by simp]
        simp [hfind_next]
      have hfresh1 : ∀ s2 ∈ ss,
          ∀ p ∈ c.db.book_subject ++ [(bId, c.db.nextSubjectId)], p.1 = bId →
          ∀ r ∈ c.db.subject ++ [(⟨c.db.nextSubjectId, s⟩ : SubjectRow)],
          r.id = p.2 → r.sub_name ≠ s2 := by
        intro s2 hs2m p hp hfst r hr hid
        rcases List.mem_append.mp hp with hp | hp
        · rcases List.mem_append.mp hr with hr | hr
          · exact hfresh s2 (List.mem_cons_of_mem s hs2m) p hp hfst r hr hid
          · rw [List.mem_singleton] at hr
            subst hr
            obtain ⟨-, ⟨rOld, hrOld, hidOld⟩⟩ := hwf.bsFk p hp
            have hb2 := (hwf.subjectIds rOld hrOld).2
            simp at hid
            omega
        · rw [List.mem_singleton] at hp
          subst hp
          rcases List.mem_append.mp hr with hr | hr
          · have hb2 := (hwf.subjectIds r hr).2
            simp at hid
            omega
          · rw [List.mem_singleton] at hr
            subst hr
            exact hndh s2 hs2m
      obtain ⟨c2, hrest, hwf2, hview2, hbk2, hau2, hba2⟩ :=
        ih ⟨{ c.db with
            subject := c.db.subject ++ [⟨c.db.nextSubjectId, s⟩],
            nextSubjectId := c.db.nextSubjectId + 1,
            book_subject := c.db.book_subject ++ [(bId, c.db.nextSubjectId)],
            nextBookSubjectRowid := c.db.nextBookSubjectRowid + 1 },
          c.db.nextBookSubjectRowid, c.stmtIdx + 3⟩ hwf1 hb hndt hfresh1
      refine ⟨c2, ?_, hwf2, ?_, hbk2, hau2, hba2⟩
      · simp only [saveSubjects]
        rw [hstep]
        exact hrest
      · rw [hview2, hview1, List.append_assoc]
        rfl

/-- The author view depends only on `book_author` and `author`. -/
theorem authorsView_congr {d1 d2 : DB} (h1 : d1.book_author = d2.book_author)
    (h2 : d1.author = d2.author) (bId : Nat) :
    authorsView d1 bId = authorsView d2 bId := by
  unfold authorsView
  rw [h1, h2]

/-- The subject view depends only on `book_subject` and `subject`. -/
theorem subjectsView_congr {d1 d2 : DB} (h1 : d1.book_subject = d2.book_subject)
    (h2 : d1.subject = d2.subject) (bId : Nat) :
    subjectsView d1 bId = subjectsView d2 bId := by
  unfold subjectsView
  rw [h1, h2]

/-- Composing the two loops into the whole phase. -/
theorem savePhase2_of_loops {f : Option Nat} {b : Book} {bId : Nat}
    {c c2 c3 : Conn} (hA : saveAuthors f bId b.authors c = (Except.ok (), c2))
    (hS : saveSubjects f bId b.subjects c2 = (Except.ok (), c3)) :
    savePhase2 f b bId c = (Except.ok (), c3.db) := by
  unfold savePhase2
  split
  · next e c2x heq =>
    rw [hA] at heq
    simp only [Prod.mk.injEq] at heq
    cases heq.1
  · next c2x heq =>
    rw [hA] at heq
    simp only [Prod.mk.injEq] at heq
    obtain ⟨-, heqc⟩ := heq
    subst heqc
    split
    · next e c3x heq2 =>
      rw [hS] at heq2
      simp only [Prod.mk.injEq] at heq2
      cases heq2.1
    · next c3x heq2 =>
      rw [hS] at heq2
      simp only [Prod.mk.injEq] at heq2
      obtain ⟨-, heqc2⟩ := heq2
      subst heqc2
      rfl

/-- In a well-formed store, no link row can reference the *next* book rowid
on the book side. -/
theorem ba_filter_next_nil {db : DB} (hwf : db.WF) :
    db.book_author.filter (fun p => p.1 == db.nextBookId) = [] := by
  rw [List.filter_eq_nil_iff]
  intro p hp
  simp only [beq_iff_eq]
  intro hfst
  obtain ⟨⟨r, hr, hid⟩, -⟩ := hwf.baFk p hp
  have := (hwf.bookIds r hr).2
  omega

/-- Symmetric fact for `book_subject`. -/
theorem bs_filter_next_nil {db : DB} (hwf : db.WF) :
    db.book_subject.filter (fun p => p.1 == db.nextBookId) = [] := by
  rw [List.filter_eq_nil_iff]
  intro p hp
  simp only [beq_iff_eq]
  intro hfst
  obtain ⟨⟨r, hr, hid⟩, -⟩ := hwf.bsFk p hp
  have := (hwf.bookIds r hr).2
  omega

/-- C3 (amended): round trip.  For a valid book (pairwise-distinct author
urls, duplicate-free subjects) whose `isbn` and `url` are absent from a
well-formed store, and whose author urls are either absent from the store or
stored with the same display name, `save` completes and `from_db` on the
isbn returns the book: scalar fields equal, the author list equal up to
reordering (here: exactly), the subjects equal as sets. -/
theorem claim_C3_amended (db : DB) (b : Book) (hwf : db.WF)
    (hisbn : ∀ r ∈ db.book, r.isbn ≠ b.isbn)
    (hurl : ∀ r ∈ db.book, r.url ≠ b.url)
    (hand : b.authors.Pairwise (fun a1 a2 => a1.url ≠ a2.url))
    (hsnd : b.subjects.Pairwise (fun s1 s2 => s1 ≠ s2))
    (hcompat : ∀ a ∈ b.authors, ∀ r ∈ db.author, r.url = a.url → r.name = a.name) :
    ∃ db2 loaded, b.save db = (Except.ok (), db2) ∧
      Book.from_db db2 b.isbn = (Except.ok loaded, db2) ∧
      loaded.url = b.url ∧ loaded.isbn = b.isbn ∧ loaded.title = b.title ∧
      loaded.subtitle = b.subtitle ∧ loaded.cover_url = b.cover_url ∧
      loaded.authors.Perm b.authors ∧
      (∀ s, s ∈ loaded.subjects ↔ s ∈ b.subjects) := by
  have hselN : selectBookIdByIsbn db b.isbn = none := by
    unfold selectBookIdByIsbn
    rw [show db.book.find? (fun r => r.isbn == b.isbn) = none by
      rw [List.find?_eq_none]; intro r hr; simpa using hisbn r hr]
    rfl
  have hanyu : db.book.any (fun r => r.url == b.url) = false := by
    rw [List.any_eq_false]
    intro r hr
    simpa using hurl r hr
  have hanyi : db.book.any (fun r => r.isbn == b.isbn) = false := by
    rw [List.any_eq_false]
    intro r hr
    simpa using hisbn r hr
  have hins : insertBookOnConflictUrl db b =
      .ok (some db.nextBookId, { db with
        book := db.book ++
          [⟨db.nextBookId, b.url, b.isbn, b.title, b.subtitle, b.cover_url⟩],
        nextBookId := db.nextBookId + 1 }) := by
    unfold insertBookOnConflictUrl
    rw [hanyu, if_neg Bool.false_ne_true, hanyi, if_neg Bool.false_ne_true]
  have hwfB := insertBook_wf hwf hins
  have hbany : ({ db with
      book := db.book ++
        [⟨db.nextBookId, b.url, b.isbn, b.title, b.subtitle, b.cover_url⟩],
      nextBookId := db.nextBookId + 1 } : DB).book.any
        (fun r => r.id == db.nextBookId) = true := by
    rw [List.any_eq_true]
    exact ⟨⟨db.nextBookId, b.url, b.isbn, b.title, b.subtitle, b.cover_url⟩,
      by simp, by simp⟩
  have hfreshA : ∀ a ∈ b.authors, ∀ p ∈ db.book_author, p.1 = db.nextBookId →
      ∀ r ∈ db.author, r.id = p.2 → r.url ≠ a.url := by
    intro a ha p hp hfst r hr hid
    obtain ⟨⟨rB, hrB, hidB⟩, -⟩ := hwf.baFk p hp
    have hlt := (hwf.bookIds rB hrB).2
    omega
  obtain ⟨c2, hA, hwf2, hviewA, hbk2, hsu2, hbs2⟩ :=
    saveAuthors_view db.nextBookId b.authors
      ⟨{ db with
          book := db.book ++
            [⟨db.nextBookId, b.url, b.isbn, b.title, b.subtitle, b.cover_url⟩],
          nextBookId := db.nextBookId + 1 }, db.nextBookId, 2⟩
      hwfB hbany hand hcompat hfreshA
  have hbk2a : c2.db.book = ({ db with
      book := db.book ++
        [⟨db.nextBookId, b.url, b.isbn, b.title, b.subtitle, b.cover_url⟩],
      nextBookId := db.nextBookId + 1 } : DB).book := hbk2
  have hbs2a : c2.db.book_subject = db.book_subject := hbs2
  have hsu2a : c2.db.subject = db.subject := hsu2
  have hbany2 : c2.db.book.any (fun r => r.id == db.nextBookId) = true := by
    rw [hbk2a]
    exact hbany
  have hfreshS : ∀ s ∈ b.subjects, ∀ p ∈ c2.db.book_subject,
      p.1 = db.nextBookId → ∀ r ∈ c2.db.subject, r.id = p.2 →
      r.sub_name ≠ s := by
    intro s hs p hp hfst r hr hid
    rw [hbs2a] at hp
    obtain ⟨⟨rB, hrB, hidB⟩, -⟩ := hwf.bsFk p hp
    have hlt := (hwf.bookIds rB hrB).2
    omega
  obtain ⟨c3, hS, hwf3, hviewS, hbk3, hau3, hba3⟩ :=
    saveSubjects_view db.nextBookId b.subjects c2 hwf2 hbany2 hsnd hfreshS
  have hsave : b.save db = (Except.ok (), c3.db) := by
    unfold Book.save
    rw [saveF_isbn_miss b db hselN, hins]
    exact savePhase2_of_loops hA hS
  have hbook3 : c3.db.book = db.book ++
      [⟨db.nextBookId, b.url, b.isbn, b.title, b.subtitle, b.cover_url⟩] := by
    rw [hbk3, hbk2a]
  have hfind3 : c3.db.book.find? (fun x => x.isbn == b.isbn) =
      some ⟨db.nextBookId, b.url, b.isbn, b.title, b.subtitle, b.cover_url⟩ := by
    rw [hbook3, find?_append_of_none (by
      rw [List.find?_eq_none]; intro r hr; simpa using hisbn r hr)]
    simp
  have hviewB0 : authorsView ({ db with
      book := db.book ++
        [⟨db.nextBookId, b.url, b.isbn, b.title, b.subtitle, b.cover_url⟩],
      nextBookId := db.nextBookId + 1 } : DB) db.nextBookId = [] := by
    unfold authorsView
    rw [show ({ db with
        book := db.book ++
          [⟨db.nextBookId, b.url, b.isbn, b.title, b.subtitle, b.cover_url⟩],
        nextBookId := db.nextBookId + 1 } : DB).book_author = db.book_author
      from rfl]
    rw [ba_filter_next_nil hwf]
    rfl
  have hviewAa : authorsView c2.db db.nextBookId =
      authorsView ({ db with
        book := db.book ++
          [⟨db.nextBookId, b.url, b.isbn, b.title, b.subtitle, b.cover_url⟩],
        nextBookId := db.nextBookId + 1 } : DB) db.nextBookId ++ b.authors :=
    hviewA
  have hviewA3 : authorsView c3.db db.nextBookId = b.authors := by
    rw [authorsView_congr hba3 hau3 db.nextBookId, hviewAa, hviewB0]
    rfl
  have hviewS2 : subjectsView c2.db db.nextBookId = [] := by
    unfold subjectsView
    rw [hbs2a, hsu2a, bs_filter_next_nil hwf]
    rfl
  have hviewS3 : subjectsView c3.db db.nextBookId = b.subjects := by
    rw [hviewS, hviewS2]
    rfl
  refine ⟨c3.db, _, hsave, from_db_found hfind3, rfl, rfl, rfl, rfl, rfl, ?_, ?_⟩
  · show (authorsView c3.db db.nextBookId).Perm b.authors
    rw [hviewA3]
  · intro s
    show s ∈ subjectsView c3.db db.nextBookId ↔ s ∈ b.subjects
    rw [hviewS3]

/-- A book that stores author url "au" under display name "X". -/
def cxB0 : Book := ⟨"u0", "i0", "T0", none, [⟨"au", "X"⟩], [], none⟩

/-- A book with fresh isbn/url whose author shares url "au" but carries a
different display name "Y". -/
def cxB1 : Book := ⟨"u9", "i9", "T9", none, [⟨"au", "Y"⟩], [], none⟩

/-- The store holding `cxB0`. -/
def cxDb : DB := (cxB0.save DB.empty).2

/-- C3 (counterexample): the claim as stated fails.  `cxB1` is a valid book
whose isbn and url are absent from the store `cxDb`, yet saving and loading
it returns the *stored* author name "X", not `cxB1`'s "Y": the author url
already exists, so the find-or-create reuses the existing row, and the
loaded author list is not a permutation of the saved one. -/
theorem claim_C3_counterexample :
    (∀ r ∈ cxDb.book, r.isbn ≠ cxB1.isbn ∧ r.url ≠ cxB1.url) ∧
      (cxB1.save cxDb).1 = Except.ok () ∧
      (Book.from_db (cxB1.save cxDb).2 "i9").1 =
        Except.ok ⟨"u9", "i9", "T9", none, [⟨"au", "X"⟩], [], none⟩ ∧
      ¬ ([(⟨"au", "X"⟩ : Author)].Perm [(⟨"au", "Y"⟩ : Author)]) :=
  ⟨by decide, rfl, rfl, by decide⟩

/-- C3 (witness): the amended round trip on the empty store. -/
theorem claim_C3_witness : (exB1.save DB.empty).1 = Except.ok () := by
  obtain ⟨db2, loaded, h1, -⟩ :=
    claim_C3_amended DB.empty exB1 wf_empty (by decide) (by decide)
      (by decide) (by decide) (by decide)
  rw [h1]
